import Mathlib

/-!
# bettercap `network`: the host registry (`lan.go`) and the address helpers (`net.go`)

A shallow embedding of the two source files.

* Go strings are byte sequences; they are embedded as lists with one element per byte.
* Go maps are embedded as association lists with at most one entry per key.
* The registry is a value of type `LAN`; every method takes the registry and returns the
  registry it leaves behind, its return value, and the callbacks it invoked, in order.
* `uint` counters are naturals with arithmetic taken modulo `2 ^ 64`.
-/

namespace Network

/-! ## Strings -/

/-- A Go string: a sequence of bytes, one list element per byte. -/
abbrev GoString := List Char

/-- Go `strings.ContainsRune(s, r)` for an ASCII rune `r`. -/
def ContainsRune (s : GoString) (r : Char) : Bool :=
  s.contains r

/-- Go `strings.Split(s, sep)` for a separator of one byte: the pieces between the
separators, in order; there is always at least one piece. -/
def Split (s : GoString) (sep : Char) : List GoString :=
  match s with
  | [] => [[]]
  | c :: cs =>
    if c = sep then [] :: Split cs sep
    else
      match Split cs sep with
      | [] => [[c]]
      | p :: ps => (c :: p) :: ps

/-- Go `strings.Join(parts, sep)`. -/
def Join (parts : List GoString) (sep : GoString) : GoString :=
  match parts with
  | [] => []
  | [p] => p
  | p :: q :: ps => p ++ sep ++ Join (q :: ps) sep

/-- Go `strings.HasSuffix(s, suffix)`. -/
def HasSuffix (s suffix : GoString) : Bool :=
  suffix.isSuffixOf s

/-- Go `strings.HasPrefix(s, pre)`. -/
def HasPrefix (s pre : GoString) : Bool :=
  pre.isPrefixOf s

/-- Go `strings.ToLower(s)` on the ASCII letters. The source only compares the result with
the ASCII constant `BroadcastMac`, and no byte outside `A`..`Z` lower-cases to one of the
bytes of that constant. -/
def ToLower (s : GoString) : GoString :=
  s.map Char.toLower

/-! ## Constants of `net.go` and `lan.go` -/

def MonitorModeAddress : GoString := "0.0.0.0".toList

def BroadcastSuffix : GoString := ".255".toList

def BroadcastMac : GoString := "ff:ff:ff:ff:ff:ff".toList

def LANDefaultttl : Nat := 10

/-- The number of values of a Go `uint` on the 64-bit targets. -/
def uintRange : Nat := 2 ^ 64

/-! ## `NormalizeMac` (net.go, lines 26-40) -/

/-- The loop body of `NormalizeMac`: `if len(p) < 2 { parts[i] = "0" + p }`. -/
def padPart (p : GoString) : GoString :=
  if p.length < 2 then '0' :: p else p

def NormalizeMac (mac : GoString) : GoString :=
  let parts := if ContainsRune mac '-' then Split mac '-' else Split mac ':'
  Join (parts.map padPart) [':']

/-! ## Maps -/

/-- A Go `map[string]V`. -/
abbrev GoMap (V : Type) := List (GoString × V)

/-- Reading `m[key]` with the comma-ok form: `none` when the key is absent. -/
def mget {V : Type} (m : GoMap V) (key : GoString) : Option V :=
  match m with
  | [] => none
  | (k, v) :: rest => if k = key then some v else mget rest key

/-- The assignment `m[key] = val`. -/
def mset {V : Type} (m : GoMap V) (key : GoString) (val : V) : GoMap V :=
  match m with
  | [] => [(key, val)]
  | (k, v) :: rest => if k = key then (k, val) :: rest else (k, v) :: mset rest key val

/-- The builtin `delete(m, key)`. -/
def mdel {V : Type} (m : GoMap V) (key : GoString) : GoMap V :=
  match m with
  | [] => []
  | (k, v) :: rest => if k = key then mdel rest key else (k, v) :: mdel rest key

/-! ## The standard library and the `Endpoint` record -/

/-- Go `net.IPNet`: a network number and a mask, as byte slices. -/
structure IPNet where
  IP : List Nat
  Mask : List Nat
deriving DecidableEq, Repr

/-- The functions of Go's package `net` that the two files rely on. They belong to the
standard library, not to this repository, and are taken as given.

* `ParseIP s` is `net.ParseIP(s)`, a byte slice, `[]` standing for the `nil` of a failed parse;
* `Contains n a` is `n.Contains(a)`;
* `ParseMAC s` is the slice `net.ParseMAC(s)` yields, `[]` when it fails;
* `SubnetOf ip bits` is the network an address and a prefix length describe. -/
structure NetPkg where
  ParseIP : GoString → List Nat
  Contains : IPNet → List Nat → Bool
  ParseMAC : GoString → List Nat
  SubnetOf : GoString → Nat → IPNet

/-- Modelled from the spec: the `Endpoint` record, declared in endpoint.go, which is not
among the sources. The spec lists its content as IPv4 address, optional IPv6 address,
hardware address, subnet/prefix, optional alias, optional interface index and optional
display name; the fields below are the ones `lan.go` and `net.go` read or write. -/
structure Endpoint where
  IpAddress : GoString
  HwAddress : GoString
  Hostname : GoString
  SubnetBits : Nat
  Alias : GoString
  Net : IPNet
  HW : List Nat
  IPv6 : List Nat
  Ip6Address : GoString
  Index : Int
deriving DecidableEq, Repr

/-- Modelled from the spec: `NewEndpointNoResolve(ip, mac, name, bits)` of endpoint.go, not
among the sources: the record for the given address, hardware address, display name and
subnet width, with no alias, no IPv6 address and no interface index yet. -/
def NewEndpointNoResolve (pkg : NetPkg) (ip mac name : GoString) (bits : Nat) : Endpoint :=
  { IpAddress := ip
    HwAddress := mac
    Hostname := name
    SubnetBits := bits
    Alias := []
    Net := pkg.SubnetOf ip bits
    HW := pkg.ParseMAC mac
    IPv6 := []
    Ip6Address := []
    Index := 0 }

/-- Modelled from the spec: `NewEndpoint(ip, mac)` of endpoint.go, not among the sources. -/
def NewEndpoint (pkg : NetPkg) (ip mac : GoString) : Endpoint :=
  NewEndpointNoResolve pkg ip mac [] 0

/-- Modelled from the spec: `NewEndpointWithAlias(ip, mac, alias)` of endpoint.go, not among
the sources: the Endpoint built from the address, the hardware address and the alias. -/
def NewEndpointWithAlias (pkg : NetPkg) (ip mac alias_ : GoString) : Endpoint :=
  { NewEndpoint pkg ip mac with Alias := alias_ }

/-- Modelled from the spec: the alias store of aliases.go, not among the sources, a
persistent mapping from hardware address to alias with `get(mac) → alias|empty` and
`set(mac, alias)`. -/
abbrev Aliases := GoMap GoString

/-- Modelled from the spec: `Aliases.Get(mac)`, the alias recorded for `mac` or the empty
string. -/
def Aliases.Get (a : Aliases) (mac : GoString) : GoString :=
  (mget a mac).getD []

/-- Modelled from the spec: `Aliases.Set(mac, alias)`. -/
def Aliases.Set (a : Aliases) (mac alias_ : GoString) : Aliases :=
  mset a mac alias_

/-! ## The registry (lan.go) -/

/-- The fields of `LAN`. The mutex is not represented: every method runs as one atomic step.
The two callbacks are not stored: each invocation is reported as an `Event`. -/
structure LAN where
  hosts : GoMap Endpoint
  iface : Endpoint
  gateway : Endpoint
  ttl : GoMap Nat
  aliases : Aliases
deriving DecidableEq, Repr

/-- One invocation of a callback, with the Endpoint it received. -/
inductive Event where
  | newCb (e : Endpoint)
  | lostCb (e : Endpoint)
deriving DecidableEq, Repr

/-- The registry `NewLAN` returns; `aliases` is the store `LoadAliases` produced. -/
def NewLAN (iface gateway : Endpoint) (aliases : Aliases) : LAN :=
  { hosts := []
    iface := iface
    gateway := gateway
    ttl := []
    aliases := aliases }

def LAN.SetAliasFor (lan : LAN) (mac alias_ : GoString) : LAN × Bool :=
  let mac := NormalizeMac mac
  match mget lan.hosts mac with
  | some e =>
    ({ lan with
        aliases := lan.aliases.Set mac alias_
        hosts := mset lan.hosts mac { e with Alias := alias_ } }, true)
  | none => (lan, false)

def LAN.Get (lan : LAN) (mac : GoString) : Option Endpoint × Bool :=
  match mget lan.hosts mac with
  | some e => (some e, true)
  | none => (none, false)

def LAN.WasMissed (lan : LAN) (mac : GoString) : Bool :=
  if mac = lan.iface.HwAddress ∨ mac = lan.gateway.HwAddress then false
  else
    match mget lan.ttl mac with
    | some ttl => decide (ttl < LANDefaultttl)
    | none => true

/-- The method `Remove`. Reading `lan.ttl[mac]` yields the zero value for an absent key, and
the decrement is the one of `uint`. -/
def LAN.Remove (lan : LAN) (_ip mac : GoString) : LAN × List Event :=
  match mget lan.hosts mac with
  | some e =>
    let t := ((mget lan.ttl mac).getD 0 + uintRange - 1) % uintRange
    let ttl := mset lan.ttl mac t
    if t = 0 then
      ({ lan with hosts := mdel lan.hosts mac, ttl := mdel ttl mac }, [Event.lostCb e])
    else
      ({ lan with ttl := ttl }, [])
  | none => (lan, [])

def LAN.shouldIgnore (pkg : NetPkg) (lan : LAN) (ip mac : GoString) : Bool :=
  -- skip our own address
  if ip = lan.iface.IpAddress then true
  -- skip the gateway
  else if ip = lan.gateway.IpAddress then true
  -- skip broadcast addresses
  else if HasSuffix ip BroadcastSuffix then true
  -- skip broadcast macs
  else if ToLower mac = BroadcastMac then true
  -- skip everything which is not in our subnet
  else
    let addr := pkg.ParseIP ip
    pkg.Contains lan.iface.Net addr == false

def LAN.Has (lan : LAN) (ip : GoString) : Bool :=
  lan.hosts.any fun kv => kv.2.IpAddress = ip

def LAN.GetByIp (lan : LAN) (ip : GoString) : Option Endpoint :=
  (lan.hosts.find? fun kv => kv.2.IpAddress = ip).map Prod.snd

def LAN.AddIfNew (pkg : NetPkg) (lan : LAN) (ip mac : GoString) :
    LAN × Option Endpoint × List Event :=
  let mac := NormalizeMac mac
  if lan.shouldIgnore pkg ip mac then (lan, none, [])
  else
    match mget lan.hosts mac with
    | some t =>
      let cur := (mget lan.ttl mac).getD 0
      if cur < LANDefaultttl then
        ({ lan with ttl := mset lan.ttl mac ((cur + 1) % uintRange) }, some t, [])
      else (lan, some t, [])
    | none =>
      let e := NewEndpointWithAlias pkg ip mac (lan.aliases.Get mac)
      ({ lan with hosts := mset lan.hosts mac e, ttl := mset lan.ttl mac LANDefaultttl },
        none, [Event.newCb e])

/-! ## Runs of the registry -/

/-- A call of one of the three methods that change the registry. -/
inductive Call where
  | AddIfNew (ip mac : GoString)
  | Remove (ip mac : GoString)
  | SetAliasFor (mac alias_ : GoString)
deriving DecidableEq, Repr

/-- The registry and the callbacks after one call. -/
def step (pkg : NetPkg) (lan : LAN) (c : Call) : LAN × List Event :=
  match c with
  | Call.AddIfNew ip mac => ((lan.AddIfNew pkg ip mac).1, (lan.AddIfNew pkg ip mac).2.2)
  | Call.Remove ip mac => lan.Remove ip mac
  | Call.SetAliasFor mac alias_ => ((lan.SetAliasFor mac alias_).1, [])

/-- The registry after a sequence of calls, with all callbacks in the order they fired. -/
def run (pkg : NetPkg) (lan : LAN) (calls : List Call) : LAN × List Event :=
  match calls with
  | [] => (lan, [])
  | c :: cs =>
    ((run pkg (step pkg lan c).1 cs).1, (step pkg lan c).2 ++ (run pkg (step pkg lan c).1 cs).2)

/-- The registries that exist at run time: those some sequence of calls produces from the
result of `NewLAN`. -/
def Reachable (pkg : NetPkg) (lan : LAN) : Prop :=
  ∃ iface gateway aliases calls, (run pkg (NewLAN iface gateway aliases) calls).1 = lan

/-- The registry and the accumulated callbacks after `n` consecutive `Remove(ip, mac)`. -/
def removeN (lan : LAN) (ip mac : GoString) (n : Nat) : LAN × List Event :=
  match n with
  | 0 => (lan, [])
  | k + 1 =>
    (((removeN lan ip mac k).1.Remove ip mac).1,
      (removeN lan ip mac k).2 ++ ((removeN lan ip mac k).1.Remove ip mac).2)

/-! ## An instance of the standard library for dotted IPv4 text

Used to evaluate the registry on concrete addresses. -/

/-- The value of the decimal text `s`; `none` when `s` is empty or has another byte. -/
def parseDec (s : GoString) : Option Nat :=
  match s with
  | [] => none
  | _ => s.foldlM (fun acc c => if '0' ≤ c ∧ c ≤ '9' then some (acc * 10 + (c.toNat - 48)) else none) 0

/-- The value of a byte written as two hexadecimal digits. -/
def parseHexByte (s : GoString) : Option Nat :=
  let digit (c : Char) : Option Nat :=
    if '0' ≤ c ∧ c ≤ '9' then some (c.toNat - 48)
    else if 'a' ≤ c ∧ c ≤ 'f' then some (c.toNat - 87)
    else if 'A' ≤ c ∧ c ≤ 'F' then some (c.toNat - 55)
    else none
  match s with
  | [h, l] => (digit h).bind fun a => (digit l).map fun b => 16 * a + b
  | _ => none

/-- The four bytes of a dotted-decimal IPv4 address, `[]` for any other text. -/
def parseIPv4 (s : GoString) : List Nat :=
  match (Split s '.').mapM parseDec with
  | some [a, b, c, d] => if a < 256 ∧ b < 256 ∧ c < 256 ∧ d < 256 then [a, b, c, d] else []
  | _ => []

/-- The mask of an IPv4 prefix length. -/
def maskOfBits (bits : Nat) : List Nat :=
  (List.range 4).map fun i => 256 - 2 ^ (8 - min 8 (bits - 8 * i))

/-- Package `net` restricted to IPv4: addresses are kept as four bytes, a network contains
the addresses that agree with its number under its mask, and a hardware address is six
colon-separated hexadecimal octets. -/
def ipv4Pkg : NetPkg :=
  { ParseIP := parseIPv4
    Contains := fun n a =>
      a.length == 4 && n.IP.length == 4 && n.Mask.length == 4 &&
        List.zipWith Nat.land n.IP n.Mask == List.zipWith Nat.land a n.Mask
    ParseMAC := fun s =>
      match (Split s ':').mapM parseHexByte with
      | some [a, b, c, d, e, f] => [a, b, c, d, e, f]
      | _ => []
    SubnetOf := fun ip bits =>
      { IP := List.zipWith Nat.land (parseIPv4 ip) (maskOfBits bits), Mask := maskOfBits bits } }

/-- The local interface of the examples: 10.0.0.1/24 on `eth0`. -/
def selfEndpoint : Endpoint :=
  { NewEndpointNoResolve ipv4Pkg "10.0.0.1".toList "02:00:00:00:00:01".toList "eth0".toList 24
    with Index := 2 }

/-- The gateway of the examples: 10.0.0.254. -/
def gatewayEndpoint : Endpoint :=
  NewEndpoint ipv4Pkg "10.0.0.254".toList "02:00:00:00:00:fe".toList

/-- The fresh registry of the examples, built with an empty alias store. -/
def freshLAN : LAN :=
  NewLAN selfEndpoint gatewayEndpoint []

/-- The address of the host of the examples. -/
def hostIp : GoString := "10.0.0.5".toList

/-- The hardware address of the host of the examples, already in normalized form. -/
def hostMac : GoString := "aa:bb:cc:dd:ee:ff".toList

/-- The Endpoint `AddIfNew(hostIp, hostMac)` builds in the fresh registry. -/
def hostEndpoint : Endpoint :=
  NewEndpointWithAlias ipv4Pkg hostIp hostMac []

/-- The registry after `AddIfNew("10.0.0.5", "aa:bb:cc:dd:ee:ff")` on the fresh one. -/
def oneHostLAN : LAN :=
  (run ipv4Pkg freshLAN [Call.AddIfNew hostIp hostMac]).1

/-- The registry after a sighting of the local interface's own hardware address under
another address of the subnet, `AddIfNew("10.0.0.7", "02:00:00:00:00:01")`. -/
def ownMacLAN : LAN :=
  (run ipv4Pkg freshLAN [Call.AddIfNew "10.0.0.7".toList "02:00:00:00:00:01".toList]).1

/-- A hardware address written with one-digit octets, as some systems print it. -/
def shortMac : GoString := "a:b:c:d:e:f".toList

/-! ## Invariants of the registry -/

/-- The two maps have the same keys and every counter lies between 1 and `LANDefaultttl`. -/
def TtlInv (lan : LAN) : Prop :=
  ∀ k, (∀ e, mget lan.hosts k = some e →
      ∃ t, mget lan.ttl k = some t ∧ 1 ≤ t ∧ t ≤ LANDefaultttl) ∧
    (mget lan.hosts k = none → mget lan.ttl k = none)

/-- Every stored Endpoint passes the filter of `shouldIgnore` with its address and its key. -/
def FilterInv (pkg : NetPkg) (lan : LAN) : Prop :=
  ∀ k e, mget lan.hosts k = some e → lan.shouldIgnore pkg e.IpAddress k = false

/-- A valid MAC string, in the words of the spec: a non-empty sequence of octets of one or
two characters, none of them `-` or `:`, separated uniformly by `-` or by `:`. -/
def ValidMac (mac : GoString) : Prop :=
  ∃ (octets : List GoString) (sep : Char),
    (sep = '-' ∨ sep = ':') ∧ octets ≠ [] ∧
    (∀ o ∈ octets, (o.length = 1 ∨ o.length = 2) ∧ '-' ∉ o ∧ ':' ∉ o) ∧
    mac = Join octets [sep]

/-- The keys of a map, in the order of the association list. -/
def mkeys {V : Type} (m : GoMap V) : List GoString :=
  m.map Prod.fst

/-- The number of invocations of the new-host callback among `evs`. -/
def newCount (evs : List Event) : Nat :=
  match evs with
  | [] => 0
  | Event.newCb _ :: rest => newCount rest + 1
  | Event.lostCb _ :: rest => newCount rest

/-- The number of invocations of the lost-host callback among `evs`. -/
def lostCount (evs : List Event) : Nat :=
  match evs with
  | [] => 0
  | Event.newCb _ :: rest => lostCount rest
  | Event.lostCb _ :: rest => lostCount rest + 1

/-- The registry after a sighting with an empty hardware address,
`AddIfNew("10.0.0.5", "")`. -/
def emptyMacLAN : LAN :=
  (run ipv4Pkg freshLAN [Call.AddIfNew hostIp []]).1

/-! ## The interface resolver (net.go, lines 42-136) -/

/-- The pair `(*Endpoint, error)` a resolver returns; an error is kept as its message. -/
abbrev Result := Option Endpoint × Option GoString

/-- The regular expression `IPv4Validator`, `^[0-9\.]+/?\d*$`, as a matcher: one or more
digits or dots, then possibly a slash, then nothing but digits up to the end. -/
def IPv4Validator (s : GoString) : Bool :=
  let inHead := fun c : Char => c.isDigit || c == '.'
  !(s.takeWhile inHead).isEmpty &&
    match s.dropWhile inHead with
    | [] => true
    | c :: ds => c == '/' && ds.all Char.isDigit

/-- Go `strconv.Atoi`: an optional sign, then decimal digits, the value within the range of
the 64-bit `int`; `none` stands for its error. -/
def Atoi (s : GoString) : Option Int :=
  match s with
  | '-' :: r => (parseDec r).bind fun v => if v ≤ 2 ^ 63 then some (-(v : Int)) else none
  | '+' :: r => (parseDec r).bind fun v => if v < 2 ^ 63 then some (v : Int) else none
  | _ => (parseDec s).bind fun v => if v < 2 ^ 63 then some (v : Int) else none

/-- One entry of `net.Interfaces()`, as `FindInterface` reads it: the OS index, the display
name `getInterfaceName(iface)` (declared in a file that is not among the sources), the text
`iface.HardwareAddr.String()`, and the texts `a.String()` of `iface.Addrs()`, `none` when
that call fails. -/
structure Interface where
  Index : Int
  Name : GoString
  HardwareAddr : GoString
  Addrs : Option (List GoString)
deriving DecidableEq, Repr

def errNoHardwareAddress : GoString := "Could not detect interface hardware address.".toList

def errNoDefaultInterface : GoString := "Could not find default network interface.".toList

/-- The message of `fmt.Errorf("Could not find interface '%s'.", name)`. -/
def errNoInterface (name : GoString) : GoString :=
  "Could not find interface '".toList ++ name ++ "'.".toList

/-- The first assignment of `doCheck` (lines 66-73), before the addresses are looked at. -/
def doCheckByName (name : GoString) (iface : Interface) (nAddrs : Nat) : Bool :=
  if name ≠ [] ∧ name = iface.HardwareAddr then true
  else if name = [] ∧ iface.Name ≠ "lo".toList ∧ iface.Name ≠ "lo0".toList ∧ nAddrs > 0 then true
  else if iface.Name = name then true
  else false

/-- The loop of lines 77-85 over the addresses, on the pair `(doCheck, hasIPv4)`. -/
def checkAddrs (name : GoString) (addrs : List GoString) (st : Bool × Bool) : Bool × Bool :=
  match addrs with
  | [] => st
  | a :: rest =>
    checkAddrs name rest
      (if name ≠ [] ∧ (a = name ∨ HasPrefix a name = true) then true else st.1,
        if IPv4Validator a then true else st.2)

/-- One round of the loop of lines 95-118, on the Endpoint `e` built so far; `ipString` is
`net.IP.String`. -/
def scanAddr (pkg : NetPkg) (ipString : List Nat → GoString) (mac ifName : GoString)
    (e : Option Endpoint) (ip : GoString) : Option Endpoint :=
  -- Make sure this is an IPv4 address.
  if IPv4Validator ip then
    if ContainsRune ip '/' = false then
      -- plain ip
      some (NewEndpointNoResolve pkg ip mac ifName 0)
    else
      -- ip/bits
      match Split ip '/' with
      | ip_part :: bitsText :: _ =>
        match Atoi bitsText with
        | some bits => some (NewEndpointNoResolve pkg ip_part mac ifName (bits % 2 ^ 32).toNat)
        | none => e
      | _ => e
  else
    match e with
    | some e0 =>
      let v6 := pkg.ParseIP ((Split ip '/').headD [])
      some { e0 with IPv6 := v6, Ip6Address := if v6 ≠ [] then ipString v6 else e0.Ip6Address }
    | none => none

/-- The Endpoint lines 88-119 build for a selected interface. -/
def buildEndpoint (pkg : NetPkg) (ipString : List Nat → GoString) (iface : Interface)
    (addrs : List GoString) (hasIPv4 : Bool) : Option Endpoint :=
  if addrs.length = 0 ∨ hasIPv4 = false then
    some (NewEndpointNoResolve pkg MonitorModeAddress iface.HardwareAddr iface.Name 0)
  else
    addrs.foldl (scanAddr pkg ipString iface.HardwareAddr iface.Name) none

/-- The body of the loop over the interfaces (lines 49-128) for one interface: `none` when
the loop goes on to the next interface, the pair returned otherwise. -/
def tryInterface (pkg : NetPkg) (ipString : List Nat → GoString) (name : GoString)
    (iface : Interface) : Option Result :=
  match iface.Addrs with
  | none => none
  | some addrs =>
    let st := checkAddrs name addrs (doCheckByName name iface addrs.length, false)
    if st.1 then
      match buildEndpoint pkg ipString iface addrs st.2 with
      | some e =>
        if e.HW.length = 0 then some (none, some errNoHardwareAddress)
        else some (some { e with Index := iface.Index }, none)
      | none => none
    else none

/-- The loop over the interfaces and the two errors after it (lines 48-135). -/
def findInterfaceIn (pkg : NetPkg) (ipString : List Nat → GoString) (name : GoString)
    (ifaces : List Interface) : Result :=
  match ifaces with
  | [] =>
    if name = [] then (none, some errNoDefaultInterface)
    else (none, some (errNoInterface name))
  | iface :: rest =>
    match tryInterface pkg ipString name iface with
    | some r => r
    | none => findInterfaceIn pkg ipString name rest

/-- The function `FindInterface`; `interfaces` is what `net.Interfaces()` returned, the
list or the error. -/
def FindInterface (pkg : NetPkg) (ipString : List Nat → GoString)
    (interfaces : Except GoString (List Interface)) (name : GoString) : Result :=
  match interfaces with
  | Except.error err => (none, some err)
  | Except.ok ifaces => findInterfaceIn pkg ipString name ifaces

/-! ## The gateway resolver (net.go, lines 138-163) -/

/-- Modelled from the spec: the method `Name()` of endpoint.go, not among the sources,
the display name of the Endpoint. -/
def Endpoint.Name (e : Endpoint) : GoString :=
  e.Hostname

/-- What a run of the gateway resolver leaves: the pair returned and the ARP lookups made,
each with the interface name and the address asked for. -/
abbrev GatewayOutcome := Result × List (GoString × GoString)

/-- The collaborators of `FindGateway`, none of them among the sources: the result of
`core.Exec(IPv4RouteCmd, IPv4RouteCmdOpts)`, output and error; `IPv4RouteParser` through
`FindStringSubmatch`; the constant `IPv4RouteTokens`; the platform function
`IPv4RouteIsGateway`, which receives the callback; and `ArpLookup`, which returns a hardware
address and an error. -/
structure RouteEnv where
  Exec : GoString × Option GoString
  FindStringSubmatch : GoString → List GoString
  IPv4RouteTokens : Nat
  IPv4RouteIsGateway : GoString → List GoString → (GoString → GatewayOutcome) → GatewayOutcome
  ArpLookup : GoString → GoString → Bool → GoString × Option GoString

/-- The function literal `FindGateway` hands to `IPv4RouteIsGateway` (lines 147-158). -/
def gatewayCallback (pkg : NetPkg) (env : RouteEnv) (iface : Endpoint) (gateway : GoString) :
    GatewayOutcome :=
  if gateway = iface.IpAddress then ((some iface, none), [])
  else
    -- we have the address, now we need its mac
    let mac := (env.ArpLookup iface.Name gateway false).1
    ((some (NewEndpoint pkg gateway mac), none), [(iface.Name, gateway)])

/-- The loop of `FindGateway` over the lines of the output, and the error after it. -/
def findGatewayIn (pkg : NetPkg) (env : RouteEnv) (iface : Endpoint) (lines : List GoString) :
    GatewayOutcome :=
  match lines with
  | [] => ((none, some "Could not detect the gateway.".toList), [])
  | line :: rest =>
    if (env.FindStringSubmatch line).length = env.IPv4RouteTokens then
      env.IPv4RouteIsGateway iface.Name (env.FindStringSubmatch line) (gatewayCallback pkg env iface)
    else findGatewayIn pkg env iface rest

def FindGateway (pkg : NetPkg) (env : RouteEnv) (iface : Endpoint) : GatewayOutcome :=
  match env.Exec.2 with
  | some err => ((none, some err), [])
  | none => findGatewayIn pkg env iface (Split env.Exec.1 '\n')

/-! ## Interfaces and routes of the examples -/

/-- The sixteen bytes of the link-local address fe80::1. -/
def linkLocal6 : List Nat := [254, 128, 0, 0, 0, 0, 0, 0, 0, 0, 0, 0, 0, 0, 0, 1]

/-- The package `ipv4Pkg` with `ParseIP` extended to the one IPv6 text of the examples. -/
def dualPkg : NetPkg :=
  { ipv4Pkg with
    ParseIP := fun s => if s = "fe80::1".toList then linkLocal6 else parseIPv4 s }

/-- The text `net.IP.String` gives for the one IPv6 address of the examples. -/
def exampleIPString (ip : List Nat) : GoString :=
  if ip = linkLocal6 then "fe80::1".toList else []

/-- The loopback interface. -/
def loIf : Interface :=
  { Index := 1, Name := "lo".toList, HardwareAddr := [], Addrs := some ["127.0.0.1/8".toList] }

/-- An active interface with one IPv4 address. -/
def eth0If : Interface :=
  { Index := 2, Name := "eth0".toList, HardwareAddr := "02:00:00:00:00:01".toList,
    Addrs := some ["10.0.0.1/24".toList] }

/-- An interface in monitor mode: a hardware address and no address. -/
def monIf : Interface :=
  { Index := 3, Name := "wlan0mon".toList, HardwareAddr := "02:00:00:00:00:02".toList,
    Addrs := some [] }

/-- An interface with two IPv4 addresses followed by an IPv6 address. -/
def multiIf : Interface :=
  { Index := 4, Name := "eth1".toList, HardwareAddr := "02:00:00:00:00:03".toList,
    Addrs := some ["192.168.1.5/24".toList, "10.0.0.9/8".toList, "fe80::1/64".toList] }

/-- A tunnel interface: an address and no hardware address. -/
def tunIf : Interface :=
  { Index := 5, Name := "tun0".toList, HardwareAddr := [],
    Addrs := some ["10.8.0.2/24".toList] }

/-- A routing environment in the manner of `ip route`: a line `default via G dev I ...`
yields the four tokens line, `default`, `G`, `I`; `IPv4RouteIsGateway` calls the callback
with `G` when `I` is the interface asked for; the ARP lookup knows one neighbour. -/
def linuxRoutes (output : GoString) : RouteEnv :=
  { Exec := (output, none)
    FindStringSubmatch := fun line =>
      match Split line ' ' with
      | d :: v :: g :: k :: i :: _ =>
        if d = "default".toList ∧ v = "via".toList ∧ k = "dev".toList then [line, d, g, i] else []
      | _ => []
    IPv4RouteTokens := 4
    IPv4RouteIsGateway := fun ifname tokens f =>
      match tokens with
      | [_, _, g, i] => if ifname = i then f g else ((none, none), [])
      | _ => ((none, none), [])
    ArpLookup := fun _ ip _ =>
      if ip = "10.0.0.254".toList then ("02:00:00:00:00:fe".toList, none)
      else ([], some "Could not find mac".toList) }

/-- An interface whose IPv6 address comes before its IPv4 address. -/
def v6FirstIf : Interface :=
  { Index := 6, Name := "eth2".toList, HardwareAddr := "02:00:00:00:00:04".toList,
    Addrs := some ["fe80::1/64".toList, "10.0.0.9/8".toList] }

/-- An interface whose IPv6 address lies between its two IPv4 addresses. -/
def v6MiddleIf : Interface :=
  { Index := 7, Name := "eth3".toList, HardwareAddr := "02:00:00:00:00:05".toList,
    Addrs := some ["10.0.0.1/24".toList, "fe80::1/64".toList, "10.0.0.9/8".toList] }

/-! ## Map lemmas -/

theorem mget_mset_self {V : Type} (m : GoMap V) (k : GoString) (v : V) :
    mget (mset m k v) k = some v := by
  induction m with
  | nil => simp [mset, mget]
  | cons hd tl ih =>
    obtain ⟨k0, v0⟩ := hd
    by_cases h : k0 = k
    · simp [mset, mget, h]
    · simp [mset, mget, h, ih]

theorem mget_mset_ne {V : Type} (m : GoMap V) (k k' : GoString) (v : V) (hne : k ≠ k') :
    mget (mset m k v) k' = mget m k' := by
  induction m with
  | nil => simp [mset, mget, hne]
  | cons hd tl ih =>
    obtain ⟨k0, v0⟩ := hd
    by_cases h : k0 = k
    · subst h
      simp [mset, mget, hne]
    · by_cases h' : k0 = k'
      · subst h'
        simp [mset, mget, h]
      · simp [mset, mget, h, h', ih]

theorem mget_mdel_self {V : Type} (m : GoMap V) (k : GoString) :
    mget (mdel m k) k = none := by
  induction m with
  | nil => simp [mdel, mget]
  | cons hd tl ih =>
    obtain ⟨k0, v0⟩ := hd
    by_cases h : k0 = k
    · simp [mdel, h, ih]
    · simp [mdel, mget, h, ih]

theorem mget_mdel_ne {V : Type} (m : GoMap V) (k k' : GoString) (hne : k ≠ k') :
    mget (mdel m k) k' = mget m k' := by
  induction m with
  | nil => simp [mdel, mget]
  | cons hd tl ih =>
    obtain ⟨k0, v0⟩ := hd
    by_cases h : k0 = k
    · subst h
      simp [mdel, mget, hne, ih]
    · by_cases h' : k0 = k'
      · subst h'
        simp [mdel, mget, h]
      · simp [mdel, mget, h, h', ih]

theorem mdel_mset {V : Type} (m : GoMap V) (k : GoString) (v : V) :
    mdel (mset m k v) k = mdel m k := by
  induction m with
  | nil => simp [mset, mdel]
  | cons hd tl ih =>
    obtain ⟨k0, v0⟩ := hd
    by_cases h : k0 = k
    · simp [mset, mdel, h]
    · simp [mset, mdel, h, ih]

theorem mset_mset {V : Type} (m : GoMap V) (k : GoString) (v w : V) :
    mset (mset m k v) k w = mset m k w := by
  induction m with
  | nil => simp [mset]
  | cons hd tl ih =>
    obtain ⟨k0, v0⟩ := hd
    by_cases h : k0 = k
    · simp [mset, h]
    · simp [mset, h, ih]

theorem mset_eq_self {V : Type} (m : GoMap V) (k : GoString) (v : V)
    (h : mget m k = some v) : mset m k v = m := by
  induction m with
  | nil => simp [mget] at h
  | cons hd tl ih =>
    obtain ⟨k0, v0⟩ := hd
    by_cases hk : k0 = k
    · simp [mget, hk] at h
      simp [mset, hk, h]
    · simp [mget, hk] at h
      simp [mset, hk, ih h]

theorem mset_of_absent {V : Type} (m : GoMap V) (k : GoString) (v : V)
    (h : mget m k = none) : mset m k v = m ++ [(k, v)] := by
  induction m with
  | nil => simp [mset]
  | cons hd tl ih =>
    obtain ⟨k0, v0⟩ := hd
    by_cases hk : k0 = k
    · simp [mget, hk] at h
    · simp [mget, hk] at h
      simp [mset, hk, ih h]

theorem mdel_of_absent {V : Type} (m : GoMap V) (k : GoString)
    (h : mget m k = none) : mdel m k = m := by
  induction m with
  | nil => simp [mdel]
  | cons hd tl ih =>
    obtain ⟨k0, v0⟩ := hd
    by_cases hk : k0 = k
    · simp [mget, hk] at h
    · simp [mget, hk] at h
      simp [mdel, hk, ih h]

theorem uint_decr (t : Nat) (h1 : 1 ≤ t) (h2 : t ≤ LANDefaultttl) :
    (t + uintRange - 1) % uintRange = t - 1 := by
  simp only [uintRange, LANDefaultttl] at *
  omega

theorem uint_incr (t : Nat) (h2 : t < LANDefaultttl) :
    (t + 1) % uintRange = t + 1 := by
  simp only [uintRange, LANDefaultttl] at *
  omega

/-! ## The invariants hold in every reachable registry -/

theorem TtlInv_AddIfNew (pkg : NetPkg) (lan : LAN) (ip mac : GoString) (h : TtlInv lan) :
    TtlInv (lan.AddIfNew pkg ip mac).1 := by
  unfold LAN.AddIfNew
  simp only []
  split
  · exact h
  · split
    · rename_i t ht
      obtain ⟨c, hc, hc1, hc2⟩ := (h (NormalizeMac mac)).1 t ht
      split
      · rename_i hlt
        simp only [hc, Option.getD_some] at hlt ⊢
        intro k
        by_cases hk : NormalizeMac mac = k
        · subst hk
          refine ⟨fun e _ => ⟨c + 1, ?_, by omega, by omega⟩, fun hn => ?_⟩
          · simp [mget_mset_self, uint_incr c hlt]
          · simp [ht] at hn
        · simp only [mget_mset_ne _ _ _ _ hk]
          exact h k
      · exact h
    · rename_i hn
      intro k
      by_cases hk : NormalizeMac mac = k
      · subst hk
        refine ⟨fun e _ => ⟨LANDefaultttl, ?_, by simp [LANDefaultttl], le_refl _⟩, fun hn' => ?_⟩
        · simp [mget_mset_self]
        · simp [mget_mset_self] at hn'
      · simp only [mget_mset_ne _ _ _ _ hk]
        exact h k

theorem Remove_absent (lan : LAN) (ip mac : GoString) (h : mget lan.hosts mac = none) :
    lan.Remove ip mac = (lan, []) := by
  simp only [LAN.Remove, h]

theorem Remove_last (lan : LAN) (ip mac : GoString) (e : Endpoint)
    (he : mget lan.hosts mac = some e) (ht : mget lan.ttl mac = some 1) :
    lan.Remove ip mac =
      ({ lan with hosts := mdel lan.hosts mac, ttl := mdel lan.ttl mac }, [Event.lostCb e]) := by
  have hd : (1 + uintRange - 1) % uintRange = 0 := by simp [uintRange]
  simp only [LAN.Remove, he, ht, Option.getD_some, hd, if_true, mdel_mset]

theorem Remove_decr (lan : LAN) (ip mac : GoString) (e : Endpoint) (c : Nat)
    (he : mget lan.hosts mac = some e) (ht : mget lan.ttl mac = some c)
    (h2 : 2 ≤ c) (h10 : c ≤ LANDefaultttl) :
    lan.Remove ip mac = ({ lan with ttl := mset lan.ttl mac (c - 1) }, []) := by
  have hd : (c + uintRange - 1) % uintRange = c - 1 := uint_decr c (by omega) h10
  have hne : ¬ (c - 1 = 0) := by omega
  simp only [LAN.Remove, he, ht, Option.getD_some, hd, hne, if_false]

theorem TtlInv_Remove (lan : LAN) (ip mac : GoString) (h : TtlInv lan) :
    TtlInv (lan.Remove ip mac).1 := by
  cases he : mget lan.hosts mac with
  | none =>
    rw [Remove_absent lan ip mac he]
    exact h
  | some e =>
    obtain ⟨c, hc, hc1, hc2⟩ := (h mac).1 e he
    by_cases h1 : c = 1
    · subst h1
      rw [Remove_last lan ip mac e he hc]
      intro k
      by_cases hk : mac = k
      · subst hk
        simp [mget_mdel_self]
      · simp only [mget_mdel_ne _ _ _ hk]
        exact h k
    · rw [Remove_decr lan ip mac e c he hc (by omega) hc2]
      intro k
      by_cases hk : mac = k
      · subst hk
        refine ⟨fun e _ => ⟨c - 1, ?_, by omega, by omega⟩, fun hn => ?_⟩
        · simp [mget_mset_self]
        · simp [he] at hn
      · simp only [mget_mset_ne _ _ _ _ hk]
        exact h k

theorem TtlInv_SetAliasFor (lan : LAN) (mac al : GoString) (h : TtlInv lan) :
    TtlInv (lan.SetAliasFor mac al).1 := by
  unfold LAN.SetAliasFor
  simp only []
  split
  · rename_i e he
    intro k
    by_cases hk : NormalizeMac mac = k
    · subst hk
      refine ⟨fun _ _ => (h _).1 e he, fun hn => ?_⟩
      simp [mget_mset_self] at hn
    · simp only [mget_mset_ne _ _ _ _ hk]
      exact h k
  · exact h

theorem TtlInv_step (pkg : NetPkg) (lan : LAN) (c : Call) (h : TtlInv lan) :
    TtlInv (step pkg lan c).1 := by
  cases c with
  | AddIfNew ip mac => exact TtlInv_AddIfNew pkg lan ip mac h
  | Remove ip mac => exact TtlInv_Remove lan ip mac h
  | SetAliasFor mac al => exact TtlInv_SetAliasFor lan mac al h

theorem TtlInv_run (pkg : NetPkg) (calls : List Call) (lan : LAN) (h : TtlInv lan) :
    TtlInv (run pkg lan calls).1 := by
  induction calls generalizing lan with
  | nil => exact h
  | cons c cs ih => exact ih _ (TtlInv_step pkg lan c h)

theorem TtlInv_of_Reachable (pkg : NetPkg) (lan : LAN) (h : Reachable pkg lan) :
    TtlInv lan := by
  obtain ⟨iface, gateway, aliases, calls, rfl⟩ := h
  apply TtlInv_run
  intro k
  simp [NewLAN, mget]

/-! ## The branches of `shouldIgnore` and `AddIfNew` -/

theorem shouldIgnore_eq_false_iff (pkg : NetPkg) (lan : LAN) (ip mac : GoString) :
    lan.shouldIgnore pkg ip mac = false ↔
      ip ≠ lan.iface.IpAddress ∧ ip ≠ lan.gateway.IpAddress ∧
        HasSuffix ip BroadcastSuffix = false ∧ ToLower mac ≠ BroadcastMac ∧
        pkg.Contains lan.iface.Net (pkg.ParseIP ip) = true := by
  unfold LAN.shouldIgnore
  by_cases h1 : ip = lan.iface.IpAddress
  · simp [h1]
  · by_cases h2 : ip = lan.gateway.IpAddress
    · simp [h1, h2]
    · by_cases h3 : HasSuffix ip BroadcastSuffix = true
      · simp [h1, h2, h3]
      · by_cases h4 : ToLower mac = BroadcastMac
        · simp [h1, h2, h3, h4]
        · simp [h1, h2, h3, h4]

theorem shouldIgnore_congr (pkg : NetPkg) (lan lan' : LAN) (ip mac : GoString)
    (hi : lan'.iface = lan.iface) (hg : lan'.gateway = lan.gateway) :
    lan'.shouldIgnore pkg ip mac = lan.shouldIgnore pkg ip mac := by
  simp only [LAN.shouldIgnore, hi, hg]

theorem AddIfNew_ignored (pkg : NetPkg) (lan : LAN) (ip mac : GoString)
    (h : lan.shouldIgnore pkg ip (NormalizeMac mac) = true) :
    lan.AddIfNew pkg ip mac = (lan, none, []) := by
  simp only [LAN.AddIfNew, h, if_true]

theorem AddIfNew_refresh (pkg : NetPkg) (lan : LAN) (ip mac : GoString) (e : Endpoint) (c : Nat)
    (h : lan.shouldIgnore pkg ip (NormalizeMac mac) = false)
    (he : mget lan.hosts (NormalizeMac mac) = some e)
    (ht : mget lan.ttl (NormalizeMac mac) = some c) (hc : c < LANDefaultttl) :
    lan.AddIfNew pkg ip mac =
      ({ lan with ttl := mset lan.ttl (NormalizeMac mac) (c + 1) }, some e, []) := by
  simp only [LAN.AddIfNew, h, he, ht, Option.getD_some, hc, if_true, uint_incr c hc]
  simp

theorem AddIfNew_capped (pkg : NetPkg) (lan : LAN) (ip mac : GoString) (e : Endpoint) (c : Nat)
    (h : lan.shouldIgnore pkg ip (NormalizeMac mac) = false)
    (he : mget lan.hosts (NormalizeMac mac) = some e)
    (ht : mget lan.ttl (NormalizeMac mac) = some c) (hc : ¬ c < LANDefaultttl) :
    lan.AddIfNew pkg ip mac = (lan, some e, []) := by
  simp only [LAN.AddIfNew, h, he, ht, Option.getD_some, hc, if_false]
  simp

theorem AddIfNew_create (pkg : NetPkg) (lan : LAN) (ip mac : GoString)
    (h : lan.shouldIgnore pkg ip (NormalizeMac mac) = false)
    (he : mget lan.hosts (NormalizeMac mac) = none) :
    lan.AddIfNew pkg ip mac =
      ({ lan with
          hosts := mset lan.hosts (NormalizeMac mac)
            (NewEndpointWithAlias pkg ip (NormalizeMac mac) (lan.aliases.Get (NormalizeMac mac)))
          ttl := mset lan.ttl (NormalizeMac mac) LANDefaultttl },
        none,
        [Event.newCb
          (NewEndpointWithAlias pkg ip (NormalizeMac mac) (lan.aliases.Get (NormalizeMac mac)))]) := by
  simp only [LAN.AddIfNew, h, he]
  simp

theorem SetAliasFor_tracked (lan : LAN) (mac al : GoString) (e : Endpoint)
    (he : mget lan.hosts (NormalizeMac mac) = some e) :
    lan.SetAliasFor mac al =
      ({ lan with
          aliases := lan.aliases.Set (NormalizeMac mac) al
          hosts := mset lan.hosts (NormalizeMac mac) { e with Alias := al } }, true) := by
  simp only [LAN.SetAliasFor, he]

theorem SetAliasFor_absent (lan : LAN) (mac al : GoString)
    (he : mget lan.hosts (NormalizeMac mac) = none) :
    lan.SetAliasFor mac al = (lan, false) := by
  simp only [LAN.SetAliasFor, he]

theorem step_iface (pkg : NetPkg) (lan : LAN) (c : Call) :
    (step pkg lan c).1.iface = lan.iface ∧ (step pkg lan c).1.gateway = lan.gateway := by
  cases c with
  | AddIfNew ip mac =>
    simp only [step, LAN.AddIfNew]
    split
    · exact ⟨rfl, rfl⟩
    · split
      · split <;> exact ⟨rfl, rfl⟩
      · exact ⟨rfl, rfl⟩
  | Remove ip mac =>
    simp only [step]
    cases he : mget lan.hosts mac with
    | none => rw [Remove_absent lan ip mac he]; exact ⟨rfl, rfl⟩
    | some e =>
      simp only [LAN.Remove, he]
      by_cases h0 : ((mget lan.ttl mac).getD 0 + uintRange - 1) % uintRange = 0
      · simp only [h0, if_true]; exact ⟨trivial, trivial⟩
      · simp only [h0, if_false]; exact ⟨trivial, trivial⟩
  | SetAliasFor mac al =>
    simp only [step, LAN.SetAliasFor]
    split <;> exact ⟨rfl, rfl⟩

theorem AddIfNew_hosts (pkg : NetPkg) (lan : LAN) (ip mac : GoString) :
    (lan.AddIfNew pkg ip mac).1.hosts = lan.hosts ∨
      (lan.shouldIgnore pkg ip (NormalizeMac mac) = false ∧
        (lan.AddIfNew pkg ip mac).1.hosts = mset lan.hosts (NormalizeMac mac)
          (NewEndpointWithAlias pkg ip (NormalizeMac mac) (lan.aliases.Get (NormalizeMac mac)))) := by
  cases h : lan.shouldIgnore pkg ip (NormalizeMac mac) with
  | true => left; rw [AddIfNew_ignored pkg lan ip mac h]
  | false =>
    cases he : mget lan.hosts (NormalizeMac mac) with
    | none => right; rw [AddIfNew_create pkg lan ip mac h he]; exact ⟨rfl, rfl⟩
    | some e =>
      left
      simp only [LAN.AddIfNew, h, he, Bool.false_eq_true, if_false]
      by_cases hlt : (mget lan.ttl (NormalizeMac mac)).getD 0 < LANDefaultttl
      · simp only [hlt, if_true]
      · simp only [hlt, if_false]

theorem Remove_hosts (lan : LAN) (ip mac : GoString) :
    (lan.Remove ip mac).1.hosts = lan.hosts ∨ (lan.Remove ip mac).1.hosts = mdel lan.hosts mac := by
  cases he : mget lan.hosts mac with
  | none => left; rw [Remove_absent lan ip mac he]
  | some e =>
    simp only [LAN.Remove, he]
    by_cases h0 : ((mget lan.ttl mac).getD 0 + uintRange - 1) % uintRange = 0
    · right; simp only [h0, if_true]
    · left; simp only [h0, if_false]

theorem FilterInv_step (pkg : NetPkg) (lan : LAN) (c : Call) (h : FilterInv pkg lan) :
    FilterInv pkg (step pkg lan c).1 := by
  have hc := step_iface pkg lan c
  intro k e hke
  rw [shouldIgnore_congr pkg lan _ _ _ hc.1 hc.2]
  cases c with
  | AddIfNew ip mac =>
    simp only [step] at hke
    rcases AddIfNew_hosts pkg lan ip mac with hh | ⟨hign, hh⟩
    · rw [hh] at hke
      exact h k e hke
    · rw [hh] at hke
      by_cases hk : NormalizeMac mac = k
      · subst hk
        rw [mget_mset_self] at hke
        cases hke
        exact hign
      · rw [mget_mset_ne _ _ _ _ hk] at hke
        exact h k e hke
  | Remove ip mac =>
    simp only [step] at hke
    rcases Remove_hosts lan ip mac with hh | hh
    · rw [hh] at hke
      exact h k e hke
    · rw [hh] at hke
      by_cases hk : mac = k
      · subst hk
        rw [mget_mdel_self] at hke
        cases hke
      · rw [mget_mdel_ne _ _ _ hk] at hke
        exact h k e hke
  | SetAliasFor mac al =>
    simp only [step] at hke
    cases he : mget lan.hosts (NormalizeMac mac) with
    | none =>
      rw [SetAliasFor_absent lan mac al he] at hke
      exact h k e hke
    | some e0 =>
      rw [SetAliasFor_tracked lan mac al e0 he] at hke
      by_cases hk : NormalizeMac mac = k
      · subst hk
        simp only [mget_mset_self] at hke
        cases hke
        exact h _ e0 he
      · simp only [mget_mset_ne _ _ _ _ hk] at hke
        exact h k e hke

theorem run_iface (pkg : NetPkg) (calls : List Call) (lan : LAN) :
    (run pkg lan calls).1.iface = lan.iface ∧ (run pkg lan calls).1.gateway = lan.gateway := by
  induction calls generalizing lan with
  | nil => exact ⟨rfl, rfl⟩
  | cons c cs ih =>
    have h1 := ih (step pkg lan c).1
    have h2 := step_iface pkg lan c
    exact ⟨h1.1.trans h2.1, h1.2.trans h2.2⟩

theorem FilterInv_run (pkg : NetPkg) (calls : List Call) (lan : LAN) (h : FilterInv pkg lan) :
    FilterInv pkg (run pkg lan calls).1 := by
  induction calls generalizing lan with
  | nil => exact h
  | cons c cs ih => exact ih _ (FilterInv_step pkg lan c h)

theorem FilterInv_of_Reachable (pkg : NetPkg) (lan : LAN) (h : Reachable pkg lan) :
    FilterInv pkg lan := by
  obtain ⟨iface, gateway, aliases, calls, rfl⟩ := h
  apply FilterInv_run
  intro k e hke
  simp [NewLAN, mget] at hke

theorem Reachable_fresh (pkg : NetPkg) (iface gateway : Endpoint) (aliases : Aliases) :
    Reachable pkg (NewLAN iface gateway aliases) :=
  ⟨iface, gateway, aliases, [], rfl⟩

theorem Reachable_step (pkg : NetPkg) (lan : LAN) (c : Call) (h : Reachable pkg lan) :
    Reachable pkg (step pkg lan c).1 := by
  obtain ⟨iface, gateway, aliases, calls, rfl⟩ := h
  refine ⟨iface, gateway, aliases, calls ++ [c], ?_⟩
  generalize NewLAN iface gateway aliases = l0
  induction calls generalizing l0 with
  | nil => rfl
  | cons d ds ih => exact ih (step pkg l0 d).1

/-! ## Counting a host down -/

theorem removeN_before (lan : LAN) (ip mac : GoString) (e : Endpoint) (t : Nat)
    (he : mget lan.hosts mac = some e) (ht : mget lan.ttl mac = some t)
    (h10 : t ≤ LANDefaultttl) (n : Nat) (hn : n < t) :
    removeN lan ip mac n = ({ lan with ttl := mset lan.ttl mac (t - n) }, []) := by
  induction n with
  | zero =>
    simp only [removeN, Nat.sub_zero, mset_eq_self _ _ _ ht]
  | succ k ih =>
    have hk := ih (by omega)
    have h1 : mget (removeN lan ip mac k).1.hosts mac = some e := by rw [hk]; exact he
    have h2 : mget (removeN lan ip mac k).1.ttl mac = some (t - k) := by
      rw [hk]; exact mget_mset_self _ _ _
    have h3 := Remove_decr (removeN lan ip mac k).1 ip mac e (t - k) h1 h2 (by omega) (by omega)
    simp only [removeN, h3]
    rw [hk]
    simp only [mset_mset, List.append_nil]
    have : t - k - 1 = t - (k + 1) := by omega
    rw [this]

theorem removeN_at (lan : LAN) (ip mac : GoString) (e : Endpoint) (t : Nat)
    (he : mget lan.hosts mac = some e) (ht : mget lan.ttl mac = some t)
    (h1 : 1 ≤ t) (h10 : t ≤ LANDefaultttl) :
    removeN lan ip mac t =
      ({ lan with hosts := mdel lan.hosts mac, ttl := mdel lan.ttl mac }, [Event.lostCb e]) := by
  obtain ⟨k, rfl⟩ : ∃ k, t = k + 1 := ⟨t - 1, by omega⟩
  have hk := removeN_before lan ip mac e (k + 1) he ht h10 k (by omega)
  have h2 : mget (removeN lan ip mac k).1.hosts mac = some e := by rw [hk]; exact he
  have h3 : mget (removeN lan ip mac k).1.ttl mac = some 1 := by
    rw [hk]
    simp [mget_mset_self]
  have h4 := Remove_last (removeN lan ip mac k).1 ip mac e h2 h3
  simp only [removeN, h4]
  rw [hk]
  simp only [mdel_mset, List.nil_append]

theorem removeN_after (lan : LAN) (ip mac : GoString) (e : Endpoint) (t : Nat)
    (he : mget lan.hosts mac = some e) (ht : mget lan.ttl mac = some t)
    (h1 : 1 ≤ t) (h10 : t ≤ LANDefaultttl) (n : Nat) (hn : t ≤ n) :
    removeN lan ip mac n = removeN lan ip mac t := by
  induction n with
  | zero =>
    have : t = 0 := by omega
    subst this
    rfl
  | succ k ih =>
    by_cases hk : t = k + 1
    · rw [hk]
    · have hk2 := ih (by omega)
      have hat := removeN_at lan ip mac e t he ht h1 h10
      have habs : mget (removeN lan ip mac k).1.hosts mac = none := by
        rw [hk2, hat]
        exact mget_mdel_self _ _
      have h4 := Remove_absent (removeN lan ip mac k).1 ip mac habs
      simp only [removeN, h4, List.append_nil]
      rw [hk2]

/-- C1. In a registry reachable from `NewLAN`, for a tracked key `mac` whose counter is `t`:
after `n < t` consecutive `Remove(ip, mac)` the host is still in both maps with counter
`t - n`, nothing else has changed and no callback has fired; the `t`-th call deletes `mac`
from both maps and fires the lost callback once, with the host's Endpoint; every further
call leaves the registry as it is and fires nothing. In particular, after an `AddIfNew`
that creates a host, nine `Remove` of its key leave it present with counter 1 and the tenth
removes it. -/
theorem Remove_counts_down (pkg : NetPkg) (lan : LAN) (hr : Reachable pkg lan) :
    (∀ (ip mac : GoString) (e : Endpoint) (t : Nat),
      mget lan.hosts mac = some e → mget lan.ttl mac = some t →
        (∀ n, n < t →
          removeN lan ip mac n = ({ lan with ttl := mset lan.ttl mac (t - n) }, []) ∧
          mget (removeN lan ip mac n).1.hosts mac = some e ∧
          mget (removeN lan ip mac n).1.ttl mac = some (t - n)) ∧
        (removeN lan ip mac t =
            ({ lan with hosts := mdel lan.hosts mac, ttl := mdel lan.ttl mac },
              [Event.lostCb e]) ∧
          mget (removeN lan ip mac t).1.hosts mac = none ∧
          mget (removeN lan ip mac t).1.ttl mac = none) ∧
        (∀ n, t ≤ n → removeN lan ip mac n = removeN lan ip mac t)) ∧
    (∀ (ip mac ip' : GoString),
      lan.shouldIgnore pkg ip (NormalizeMac mac) = false →
      mget lan.hosts (NormalizeMac mac) = none →
        ∃ e, (lan.AddIfNew pkg ip mac).2.2 = [Event.newCb e] ∧
          mget (removeN (lan.AddIfNew pkg ip mac).1 ip' (NormalizeMac mac) 9).1.hosts
            (NormalizeMac mac) = some e ∧
          mget (removeN (lan.AddIfNew pkg ip mac).1 ip' (NormalizeMac mac) 9).1.ttl
            (NormalizeMac mac) = some 1 ∧
          (removeN (lan.AddIfNew pkg ip mac).1 ip' (NormalizeMac mac) 9).2 = [] ∧
          mget (removeN (lan.AddIfNew pkg ip mac).1 ip' (NormalizeMac mac) 10).1.hosts
            (NormalizeMac mac) = none ∧
          mget (removeN (lan.AddIfNew pkg ip mac).1 ip' (NormalizeMac mac) 10).1.ttl
            (NormalizeMac mac) = none ∧
          (removeN (lan.AddIfNew pkg ip mac).1 ip' (NormalizeMac mac) 10).2 =
            [Event.lostCb e]) := by
  have hinv := TtlInv_of_Reachable pkg lan hr
  constructor
  · intro ip mac e t he ht
    obtain ⟨c, hc, hc1, hc10⟩ := (hinv mac).1 e he
    rw [ht] at hc
    cases hc
    refine ⟨fun n hn => ?_, ?_, fun n hn => removeN_after lan ip mac e t he ht hc1 hc10 n hn⟩
    · have hb := removeN_before lan ip mac e t he ht hc10 n hn
      refine ⟨hb, ?_, ?_⟩
      · rw [hb]; exact he
      · rw [hb]; exact mget_mset_self _ _ _
    · have ha := removeN_at lan ip mac e t he ht hc1 hc10
      refine ⟨ha, ?_, ?_⟩
      · rw [ha]; exact mget_mdel_self _ _
      · rw [ha]; exact mget_mdel_self _ _
  · intro ip mac ip' hign habs
    have hcr := AddIfNew_create pkg lan ip mac hign habs
    refine ⟨NewEndpointWithAlias pkg ip (NormalizeMac mac) (lan.aliases.Get (NormalizeMac mac)),
      ?_, ?_⟩
    · rw [hcr]
    · have he : mget (lan.AddIfNew pkg ip mac).1.hosts (NormalizeMac mac) =
          some (NewEndpointWithAlias pkg ip (NormalizeMac mac)
            (lan.aliases.Get (NormalizeMac mac))) := by
        rw [hcr]; exact mget_mset_self _ _ _
      have ht : mget (lan.AddIfNew pkg ip mac).1.ttl (NormalizeMac mac) = some LANDefaultttl := by
        rw [hcr]; exact mget_mset_self _ _ _
      have hb := removeN_before _ ip' _ _ _ he ht (le_refl _) 9 (by decide)
      have ha := removeN_at _ ip' _ _ _ he ht (by decide) (le_refl _)
      have ha10 : removeN (lan.AddIfNew pkg ip mac).1 ip' (NormalizeMac mac) 10 =
          removeN (lan.AddIfNew pkg ip mac).1 ip' (NormalizeMac mac) LANDefaultttl := rfl
      rw [ha10, hb, ha]
      refine ⟨he, ?_, rfl, mget_mdel_self _ _, mget_mdel_self _ _, rfl⟩
      exact mget_mset_self _ _ _

theorem Reachable_oneHostLAN : Reachable ipv4Pkg oneHostLAN :=
  ⟨selfEndpoint, gatewayEndpoint, [], [Call.AddIfNew hostIp hostMac], rfl⟩

/-- Witness of C1 on the scenario of the spec: in the registry holding the one host created
by `AddIfNew("10.0.0.5", "aa:bb:cc:dd:ee:ff")`, with counter 10, nine `Remove` leave the
host present with counter 1 and no callback, and the tenth removes it and fires the lost
callback once. -/
theorem Remove_counts_down_witness :
    (mget oneHostLAN.hosts hostMac = some hostEndpoint ∧ mget oneHostLAN.ttl hostMac = some 10) ∧
    (removeN oneHostLAN hostIp hostMac 9 =
        ({ oneHostLAN with ttl := mset oneHostLAN.ttl hostMac (10 - 9) }, []) ∧
      mget (removeN oneHostLAN hostIp hostMac 9).1.hosts hostMac = some hostEndpoint ∧
      mget (removeN oneHostLAN hostIp hostMac 9).1.ttl hostMac = some (10 - 9)) ∧
    (removeN oneHostLAN hostIp hostMac 10 =
        ({ oneHostLAN with
            hosts := mdel oneHostLAN.hosts hostMac, ttl := mdel oneHostLAN.ttl hostMac },
          [Event.lostCb hostEndpoint]) ∧
      mget (removeN oneHostLAN hostIp hostMac 10).1.hosts hostMac = none ∧
      mget (removeN oneHostLAN hostIp hostMac 10).1.ttl hostMac = none) :=
  ⟨⟨by decide, by decide⟩,
    ((Remove_counts_down ipv4Pkg oneHostLAN Reachable_oneHostLAN).1 hostIp hostMac hostEndpoint 10
      (by decide) (by decide)).1 9 (by decide),
    ((Remove_counts_down ipv4Pkg oneHostLAN Reachable_oneHostLAN).1 hostIp hostMac hostEndpoint 10
      (by decide) (by decide)).2.1⟩

/-- C2. In every registry reachable from `NewLAN`, the counter of every tracked host lies
between 0 and `LANDefaultttl` = 10, and so does every value of the `ttl` map; the counters
are computed with the arithmetic of `uint`, so none has wrapped around. -/
theorem ttl_within_bounds (pkg : NetPkg) (lan : LAN) (hr : Reachable pkg lan) :
    (∀ (mac : GoString) (e : Endpoint), mget lan.hosts mac = some e →
      ∃ t, mget lan.ttl mac = some t ∧ 0 ≤ t ∧ t ≤ LANDefaultttl) ∧
    (∀ (mac : GoString) (t : Nat), mget lan.ttl mac = some t → 0 ≤ t ∧ t ≤ LANDefaultttl) := by
  have hinv := TtlInv_of_Reachable pkg lan hr
  constructor
  · intro mac e he
    obtain ⟨t, ht, _, h10⟩ := (hinv mac).1 e he
    exact ⟨t, ht, Nat.zero_le _, h10⟩
  · intro mac t ht
    cases he : mget lan.hosts mac with
    | none =>
      rw [(hinv mac).2 he] at ht
      cases ht
    | some e =>
      obtain ⟨c, hc, _, h10⟩ := (hinv mac).1 e he
      rw [ht] at hc
      cases hc
      exact ⟨Nat.zero_le _, h10⟩

/-- Witness of C2: the host of the one-host registry has a counter between 0 and 10. -/
theorem ttl_within_bounds_witness :
    ∃ t, mget oneHostLAN.ttl hostMac = some t ∧ 0 ≤ t ∧ t ≤ LANDefaultttl :=
  (ttl_within_bounds ipv4Pkg oneHostLAN Reachable_oneHostLAN).1 hostMac hostEndpoint (by decide)

/-- C3. In a registry reachable from `NewLAN`, when none of the ignore conditions holds for
`ip` and the normalized `mac`, and the normalized `mac` is a key of `hosts` holding `e`,
`AddIfNew(ip, mac)` returns `e`, invokes no callback, leaves `hosts` (and everything but the
counter of that key) as it was, and sets the counter of the key to `min (old + 1) 10`; in
particular a counter that is already 10 stays at 10. -/
theorem AddIfNew_tracked (pkg : NetPkg) (lan : LAN) (hr : Reachable pkg lan)
    (ip mac : GoString) (e : Endpoint)
    (h1 : ip ≠ lan.iface.IpAddress) (h2 : ip ≠ lan.gateway.IpAddress)
    (h3 : HasSuffix ip BroadcastSuffix = false)
    (h4 : ToLower (NormalizeMac mac) ≠ BroadcastMac)
    (h5 : pkg.Contains lan.iface.Net (pkg.ParseIP ip) = true)
    (he : mget lan.hosts (NormalizeMac mac) = some e) :
    ∃ t, mget lan.ttl (NormalizeMac mac) = some t ∧
      lan.AddIfNew pkg ip mac =
        ({ lan with ttl := mset lan.ttl (NormalizeMac mac) (min (t + 1) LANDefaultttl) },
          some e, []) ∧
      (lan.AddIfNew pkg ip mac).1.hosts = lan.hosts ∧
      mget (lan.AddIfNew pkg ip mac).1.ttl (NormalizeMac mac) = some (min (t + 1) 10) ∧
      (t = 10 → lan.AddIfNew pkg ip mac = (lan, some e, [])) := by
  have hign := (shouldIgnore_eq_false_iff pkg lan ip (NormalizeMac mac)).2 ⟨h1, h2, h3, h4, h5⟩
  obtain ⟨t, ht, ht1, ht10⟩ := (TtlInv_of_Reachable pkg lan hr (NormalizeMac mac)).1 e he
  refine ⟨t, ht, ?_⟩
  simp only [LANDefaultttl] at ht10
  by_cases hlt : t < LANDefaultttl
  · have hmin : min (t + 1) LANDefaultttl = t + 1 := by
      simp only [LANDefaultttl] at hlt ⊢
      omega
    have hmin2 : min (t + 1) 10 = t + 1 := hmin
    have hrf := AddIfNew_refresh pkg lan ip mac e t hign he ht hlt
    rw [hmin, hmin2, hrf]
    refine ⟨rfl, rfl, mget_mset_self _ _ _, fun h => ?_⟩
    simp only [LANDefaultttl] at hlt
    omega
  · have ht' : t = 10 := by
      simp only [LANDefaultttl] at hlt
      omega
    subst ht'
    have hcp := AddIfNew_capped pkg lan ip mac e 10 hign he ht hlt
    have hmin : min (10 + 1) LANDefaultttl = 10 := by decide
    have hmin2 : min (10 + 1) 10 = 10 := by decide
    rw [hmin, hmin2, hcp, mset_eq_self _ _ _ ht]
    exact ⟨rfl, rfl, ht, fun _ => rfl⟩

/-- Witness of C3: a second `AddIfNew("10.0.0.5", "aa:bb:cc:dd:ee:ff")` in the one-host
registry, whose counter is 10, returns the stored Endpoint and leaves the counter at 10. -/
theorem AddIfNew_tracked_witness :
    ∃ t, mget oneHostLAN.ttl (NormalizeMac hostMac) = some t ∧
      oneHostLAN.AddIfNew ipv4Pkg hostIp hostMac =
        ({ oneHostLAN with
            ttl := mset oneHostLAN.ttl (NormalizeMac hostMac) (min (t + 1) LANDefaultttl) },
          some hostEndpoint, []) ∧
      (oneHostLAN.AddIfNew ipv4Pkg hostIp hostMac).1.hosts = oneHostLAN.hosts ∧
      mget (oneHostLAN.AddIfNew ipv4Pkg hostIp hostMac).1.ttl (NormalizeMac hostMac) =
        some (min (t + 1) 10) ∧
      (t = 10 → oneHostLAN.AddIfNew ipv4Pkg hostIp hostMac = (oneHostLAN, some hostEndpoint, [])) :=
  AddIfNew_tracked ipv4Pkg oneHostLAN Reachable_oneHostLAN hostIp hostMac hostEndpoint
    (by decide) (by decide) (by decide) (by decide) (by decide) (by decide)

/-- C4. When none of the ignore conditions holds for `ip` and the normalized `mac`, and the
normalized `mac` is not a key of `hosts`, `AddIfNew(ip, mac)` returns nil, appends exactly
one entry to `hosts`, under the normalized `mac`, holding the Endpoint built from `ip`, the
normalized `mac` and the alias the store has for it, sets the counter of that key to 10,
invokes the new-host callback once with that Endpoint and no other callback, and leaves
every other entry of both maps as it was. -/
theorem AddIfNew_untracked (pkg : NetPkg) (lan : LAN) (ip mac : GoString)
    (h1 : ip ≠ lan.iface.IpAddress) (h2 : ip ≠ lan.gateway.IpAddress)
    (h3 : HasSuffix ip BroadcastSuffix = false)
    (h4 : ToLower (NormalizeMac mac) ≠ BroadcastMac)
    (h5 : pkg.Contains lan.iface.Net (pkg.ParseIP ip) = true)
    (he : mget lan.hosts (NormalizeMac mac) = none) :
    ∃ e : Endpoint,
      e = NewEndpointWithAlias pkg ip (NormalizeMac mac) (lan.aliases.Get (NormalizeMac mac)) ∧
      e.IpAddress = ip ∧ e.HwAddress = NormalizeMac mac ∧
      e.Alias = lan.aliases.Get (NormalizeMac mac) ∧
      lan.AddIfNew pkg ip mac =
        ({ lan with
            hosts := lan.hosts ++ [(NormalizeMac mac, e)]
            ttl := mset lan.ttl (NormalizeMac mac) 10 },
          none, [Event.newCb e]) ∧
      mget (lan.AddIfNew pkg ip mac).1.hosts (NormalizeMac mac) = some e ∧
      mget (lan.AddIfNew pkg ip mac).1.ttl (NormalizeMac mac) = some 10 ∧
      (∀ k, k ≠ NormalizeMac mac →
        mget (lan.AddIfNew pkg ip mac).1.hosts k = mget lan.hosts k ∧
        mget (lan.AddIfNew pkg ip mac).1.ttl k = mget lan.ttl k) := by
  have hign := (shouldIgnore_eq_false_iff pkg lan ip (NormalizeMac mac)).2 ⟨h1, h2, h3, h4, h5⟩
  have hcr := AddIfNew_create pkg lan ip mac hign he
  refine ⟨_, rfl, rfl, rfl, rfl, ?_, ?_, ?_, ?_⟩
  · rw [hcr, mset_of_absent _ _ _ he]
    rfl
  · rw [hcr]
    exact mget_mset_self _ _ _
  · rw [hcr]
    exact mget_mset_self _ _ _
  · intro k hk
    rw [hcr]
    exact ⟨mget_mset_ne _ _ _ _ (Ne.symm hk), mget_mset_ne _ _ _ _ (Ne.symm hk)⟩

/-- Witness of C4, scenario 1 of the spec: `AddIfNew("10.0.0.5", "aa:bb:cc:dd:ee:ff")` on
the fresh registry. -/
theorem AddIfNew_untracked_witness :
    ∃ e : Endpoint,
      e = NewEndpointWithAlias ipv4Pkg hostIp (NormalizeMac hostMac)
        (freshLAN.aliases.Get (NormalizeMac hostMac)) ∧
      e.IpAddress = hostIp ∧ e.HwAddress = NormalizeMac hostMac ∧
      e.Alias = freshLAN.aliases.Get (NormalizeMac hostMac) ∧
      freshLAN.AddIfNew ipv4Pkg hostIp hostMac =
        ({ freshLAN with
            hosts := freshLAN.hosts ++ [(NormalizeMac hostMac, e)]
            ttl := mset freshLAN.ttl (NormalizeMac hostMac) 10 },
          none, [Event.newCb e]) ∧
      mget (freshLAN.AddIfNew ipv4Pkg hostIp hostMac).1.hosts (NormalizeMac hostMac) = some e ∧
      mget (freshLAN.AddIfNew ipv4Pkg hostIp hostMac).1.ttl (NormalizeMac hostMac) = some 10 ∧
      (∀ k, k ≠ NormalizeMac hostMac →
        mget (freshLAN.AddIfNew ipv4Pkg hostIp hostMac).1.hosts k = mget freshLAN.hosts k ∧
        mget (freshLAN.AddIfNew ipv4Pkg hostIp hostMac).1.ttl k = mget freshLAN.ttl k) :=
  AddIfNew_untracked ipv4Pkg freshLAN hostIp hostMac
    (by decide) (by decide) (by decide) (by decide) (by decide) (by decide)

/-- C5. For every registry and every `ip` and `mac`: when `ip` is self's address, or the
gateway's address, or ends with ".255", or the normalized `mac` lower-cases to
"ff:ff:ff:ff:ff:ff", or the address `ParseIP` returns for `ip` is not in self's subnet,
which includes an `ip` that does not parse as long as self's subnet does not contain the nil
address, then `AddIfNew(ip, mac)` returns nil with the registry exactly as it was and no
callback. Hence, in every registry reachable from `NewLAN`, no stored Endpoint has an
address and a key for which one of these conditions holds. -/
theorem AddIfNew_ignores (pkg : NetPkg) :
    (∀ (lan : LAN) (ip mac : GoString),
      (ip = lan.iface.IpAddress ∨ ip = lan.gateway.IpAddress ∨
        HasSuffix ip BroadcastSuffix = true ∨ ToLower (NormalizeMac mac) = BroadcastMac ∨
        (pkg.ParseIP ip = [] ∧ pkg.Contains lan.iface.Net [] = false) ∨
        pkg.Contains lan.iface.Net (pkg.ParseIP ip) = false) →
      lan.AddIfNew pkg ip mac = (lan, none, [])) ∧
    (∀ (lan : LAN), Reachable pkg lan → ∀ (k : GoString) (e : Endpoint),
      mget lan.hosts k = some e →
        e.IpAddress ≠ lan.iface.IpAddress ∧ e.IpAddress ≠ lan.gateway.IpAddress ∧
        HasSuffix e.IpAddress BroadcastSuffix = false ∧ ToLower k ≠ BroadcastMac ∧
        (pkg.Contains lan.iface.Net [] = false → pkg.ParseIP e.IpAddress ≠ []) ∧
        pkg.Contains lan.iface.Net (pkg.ParseIP e.IpAddress) = true) := by
  constructor
  · intro lan ip mac hc
    apply AddIfNew_ignored
    cases h : lan.shouldIgnore pkg ip (NormalizeMac mac) with
    | true => rfl
    | false =>
      obtain ⟨h1, h2, h3, h4, h5⟩ := (shouldIgnore_eq_false_iff pkg lan ip (NormalizeMac mac)).1 h
      rcases hc with c | c | c | c | ⟨c, hnil⟩ | c
      · exact absurd c h1
      · exact absurd c h2
      · rw [h3] at c; cases c
      · exact absurd c h4
      · rw [c, hnil] at h5; cases h5
      · rw [h5] at c; cases c
  · intro lan hr k e hke
    obtain ⟨h1, h2, h3, h4, h5⟩ :=
      (shouldIgnore_eq_false_iff pkg lan e.IpAddress k).1 (FilterInv_of_Reachable pkg lan hr k e hke)
    refine ⟨h1, h2, h3, h4, fun hnil hp => ?_, h5⟩
    rw [hp, hnil] at h5
    cases h5

/-- Witness of C5: a sighting of the broadcast address 10.0.0.255, and one of the text
"somewhere", which is no address, both leave the fresh registry as it was. -/
theorem AddIfNew_ignores_witness :
    freshLAN.AddIfNew ipv4Pkg "10.0.0.255".toList hostMac = (freshLAN, none, []) ∧
      freshLAN.AddIfNew ipv4Pkg "somewhere".toList hostMac = (freshLAN, none, []) :=
  ⟨(AddIfNew_ignores ipv4Pkg).1 freshLAN "10.0.0.255".toList hostMac
      (Or.inr (Or.inr (Or.inl (by decide)))),
    (AddIfNew_ignores ipv4Pkg).1 freshLAN "somewhere".toList hostMac
      (Or.inr (Or.inr (Or.inr (Or.inr (Or.inl ⟨by decide, by decide⟩)))))⟩

/-- C6, as stated, fails: a sighting of self's own hardware address under another address of
the subnet is stored, under a key, and with a hardware address, equal to self's. -/
theorem hosts_may_hold_own_mac :
    Reachable ipv4Pkg ownMacLAN ∧
    (∃ e, mget ownMacLAN.hosts ownMacLAN.iface.HwAddress = some e ∧
      e.HwAddress = ownMacLAN.iface.HwAddress) :=
  ⟨⟨selfEndpoint, gatewayEndpoint, [], _, rfl⟩,
    NewEndpointWithAlias ipv4Pkg "10.0.0.7".toList "02:00:00:00:00:01".toList [],
    by decide, by decide⟩

/-- C6, amended. In every registry reachable from `NewLAN`, no stored Endpoint has the
address of self or of the gateway as its `IpAddress`. -/
theorem hosts_exclude_own_address (pkg : NetPkg) (lan : LAN) (hr : Reachable pkg lan)
    (k : GoString) (e : Endpoint) (he : mget lan.hosts k = some e) :
    e.IpAddress ≠ lan.iface.IpAddress ∧ e.IpAddress ≠ lan.gateway.IpAddress := by
  obtain ⟨h1, h2, _⟩ :=
    (shouldIgnore_eq_false_iff pkg lan e.IpAddress k).1 (FilterInv_of_Reachable pkg lan hr k e he)
  exact ⟨h1, h2⟩

/-- Witness of the amended C6 on the registry that holds self's own hardware address. -/
theorem hosts_exclude_own_address_witness :
    (NewEndpointWithAlias ipv4Pkg "10.0.0.7".toList "02:00:00:00:00:01".toList []).IpAddress ≠
        ownMacLAN.iface.IpAddress ∧
      (NewEndpointWithAlias ipv4Pkg "10.0.0.7".toList "02:00:00:00:00:01".toList []).IpAddress ≠
        ownMacLAN.gateway.IpAddress :=
  hosts_exclude_own_address ipv4Pkg ownMacLAN ⟨selfEndpoint, gatewayEndpoint, [], _, rfl⟩
    "02:00:00:00:00:01".toList _ (by decide)

/-- C7. In every registry reachable from `NewLAN`, `hosts` and `ttl` have the same keys. -/
theorem hosts_ttl_same_keys (pkg : NetPkg) (lan : LAN) (hr : Reachable pkg lan)
    (k : GoString) :
    (∃ e, mget lan.hosts k = some e) ↔ (∃ t, mget lan.ttl k = some t) := by
  have hinv := TtlInv_of_Reachable pkg lan hr k
  constructor
  · rintro ⟨e, he⟩
    obtain ⟨t, ht, _⟩ := hinv.1 e he
    exact ⟨t, ht⟩
  · rintro ⟨t, ht⟩
    cases he : mget lan.hosts k with
    | none =>
      rw [hinv.2 he] at ht
      cases ht
    | some e => exact ⟨e, rfl⟩

/-- Witness of C7 on the one-host registry and the key of its host. -/
theorem hosts_ttl_same_keys_witness :
    (∃ e, mget oneHostLAN.hosts hostMac = some e) ↔ (∃ t, mget oneHostLAN.ttl hostMac = some t) :=
  hosts_ttl_same_keys ipv4Pkg oneHostLAN Reachable_oneHostLAN hostMac

/-- C8. For every registry and every string `mac`: `WasMissed(mac)` is false when `mac` is
self's or the gateway's hardware address; otherwise it is true when `mac` is not a key of
`ttl`; otherwise it is true exactly when `ttl[mac] < 10`. -/
theorem WasMissed_cases (lan : LAN) (mac : GoString) :
    ((mac = lan.iface.HwAddress ∨ mac = lan.gateway.HwAddress) → lan.WasMissed mac = false) ∧
    (mac ≠ lan.iface.HwAddress → mac ≠ lan.gateway.HwAddress →
      mget lan.ttl mac = none → lan.WasMissed mac = true) ∧
    (mac ≠ lan.iface.HwAddress → mac ≠ lan.gateway.HwAddress →
      ∀ t, mget lan.ttl mac = some t → (lan.WasMissed mac = true ↔ t < 10)) := by
  refine ⟨fun h => ?_, fun h1 h2 hn => ?_, fun h1 h2 t ht => ?_⟩
  · simp only [LAN.WasMissed, h, if_true]
  · simp only [LAN.WasMissed, h1, h2, or_self, if_false, hn]
  · simp only [LAN.WasMissed, h1, h2, or_self, if_false, ht, LANDefaultttl, decide_eq_true_eq]

/-- Witness of C8: in the one-host registry self's hardware address is not missed, an
unknown address is, and the host, whose counter is 10, is not. -/
theorem WasMissed_cases_witness :
    oneHostLAN.WasMissed "02:00:00:00:00:01".toList = false ∧
    oneHostLAN.WasMissed "aa:bb:cc:dd:ee:00".toList = true ∧
    (oneHostLAN.WasMissed hostMac = true ↔ 10 < 10) :=
  ⟨(WasMissed_cases oneHostLAN "02:00:00:00:00:01".toList).1 (Or.inl (by decide)),
    (WasMissed_cases oneHostLAN "aa:bb:cc:dd:ee:00".toList).2.1 (by decide) (by decide) (by decide),
    (WasMissed_cases oneHostLAN hostMac).2.2 (by decide) (by decide) 10 (by decide)⟩

/-! ## What a call leaves alone -/

theorem AddIfNew_frame (pkg : NetPkg) (lan : LAN) (ip mac k : GoString)
    (hk : NormalizeMac mac ≠ k) :
    mget (lan.AddIfNew pkg ip mac).1.hosts k = mget lan.hosts k ∧
      mget (lan.AddIfNew pkg ip mac).1.ttl k = mget lan.ttl k := by
  cases h : lan.shouldIgnore pkg ip (NormalizeMac mac) with
  | true => rw [AddIfNew_ignored pkg lan ip mac h]; exact ⟨rfl, rfl⟩
  | false =>
    cases he : mget lan.hosts (NormalizeMac mac) with
    | none =>
      rw [AddIfNew_create pkg lan ip mac h he]
      exact ⟨mget_mset_ne _ _ _ _ hk, mget_mset_ne _ _ _ _ hk⟩
    | some e =>
      simp only [LAN.AddIfNew, h, he, Bool.false_eq_true, if_false]
      by_cases hlt : (mget lan.ttl (NormalizeMac mac)).getD 0 < LANDefaultttl
      · simp only [hlt, if_true]
        exact ⟨trivial, mget_mset_ne _ _ _ _ hk⟩
      · simp only [hlt, if_false]
        exact ⟨trivial, trivial⟩

theorem Remove_frame (lan : LAN) (ip mac k : GoString) (hk : mac ≠ k) :
    mget (lan.Remove ip mac).1.hosts k = mget lan.hosts k ∧
      mget (lan.Remove ip mac).1.ttl k = mget lan.ttl k := by
  cases he : mget lan.hosts mac with
  | none => rw [Remove_absent lan ip mac he]; exact ⟨rfl, rfl⟩
  | some e =>
    simp only [LAN.Remove, he]
    by_cases h0 : ((mget lan.ttl mac).getD 0 + uintRange - 1) % uintRange = 0
    · simp only [h0, if_true]
      exact ⟨mget_mdel_ne _ _ _ hk, by rw [mget_mdel_ne _ _ _ hk, mget_mset_ne _ _ _ _ hk]⟩
    · simp only [h0, if_false]
      exact ⟨trivial, mget_mset_ne _ _ _ _ hk⟩

theorem SetAliasFor_frame (lan : LAN) (mac al k : GoString) :
    (lan.SetAliasFor mac al).1.ttl = lan.ttl ∧
      ((∃ e, mget lan.hosts k = some e) → ∃ e, mget (lan.SetAliasFor mac al).1.hosts k = some e) := by
  cases he : mget lan.hosts (NormalizeMac mac) with
  | none => rw [SetAliasFor_absent lan mac al he]; exact ⟨rfl, id⟩
  | some e =>
    rw [SetAliasFor_tracked lan mac al e he]
    refine ⟨rfl, fun hx => ?_⟩
    by_cases hk : NormalizeMac mac = k
    · subst hk
      exact ⟨_, mget_mset_self _ _ _⟩
    · simp only [mget_mset_ne _ _ _ _ hk]
      exact hx

/-- A host whose counter is full stays tracked with a full counter through any calls other
than a `Remove` of its key. -/
theorem full_counter_persists (pkg : NetPkg) (key : GoString) (calls : List Call) (lan : LAN)
    (hh : ∃ e, mget lan.hosts key = some e) (ht : mget lan.ttl key = some LANDefaultttl)
    (hc : ∀ ip, Call.Remove ip key ∉ calls) :
    (∃ e, mget (run pkg lan calls).1.hosts key = some e) ∧
      mget (run pkg lan calls).1.ttl key = some LANDefaultttl := by
  induction calls generalizing lan with
  | nil => exact ⟨hh, ht⟩
  | cons c cs ih =>
    have hcs : ∀ ip, Call.Remove ip key ∉ cs := fun ip hm => hc ip (List.mem_cons_of_mem _ hm)
    suffices hstep : (∃ e, mget (step pkg lan c).1.hosts key = some e) ∧
        mget (step pkg lan c).1.ttl key = some LANDefaultttl from ih _ hstep.1 hstep.2 hcs
    cases c with
    | AddIfNew ip mac =>
      simp only [step]
      by_cases hk : NormalizeMac mac = key
      · subst hk
        obtain ⟨e, he⟩ := hh
        cases h : lan.shouldIgnore pkg ip (NormalizeMac mac) with
        | true => rw [AddIfNew_ignored pkg lan ip mac h]; exact ⟨⟨e, he⟩, ht⟩
        | false =>
          rw [AddIfNew_capped pkg lan ip mac e _ h he ht (lt_irrefl _)]
          exact ⟨⟨e, he⟩, ht⟩
      · have hf := AddIfNew_frame pkg lan ip mac key hk
        rw [hf.1, hf.2]
        exact ⟨hh, ht⟩
    | Remove ip mac =>
      simp only [step]
      have hk : mac ≠ key := by
        intro hm
        subst hm
        exact hc ip (List.mem_cons_self _ _)
      have hf := Remove_frame lan ip mac key hk
      rw [hf.1, hf.2]
      exact ⟨hh, ht⟩
    | SetAliasFor mac al =>
      simp only [step]
      have hf := SetAliasFor_frame lan mac al key
      rw [hf.1]
      exact ⟨hf.2 hh, ht⟩

theorem WasMissed_full (lan : LAN) (key : GoString)
    (ht : mget lan.ttl key = some LANDefaultttl) : lan.WasMissed key = false := by
  by_cases h : key = lan.iface.HwAddress ∨ key = lan.gateway.HwAddress
  · simp only [LAN.WasMissed, h, if_true]
  · simp only [LAN.WasMissed, h, if_false, ht, lt_irrefl, decide_False]

/-- C9, as stated, fails: `AddIfNew("10.0.0.5", "a:b:c:d:e:f")` creates a host on the fresh
registry, under the key "0a:0b:0c:0d:0e:0f", and `WasMissed("a:b:c:d:e:f")`, called right
after with the same string, is true. -/
theorem missed_right_after_create :
    (freshLAN.AddIfNew ipv4Pkg hostIp shortMac).2.2 =
        [Event.newCb (NewEndpointWithAlias ipv4Pkg hostIp "0a:0b:0c:0d:0e:0f".toList [])] ∧
      mget (freshLAN.AddIfNew ipv4Pkg hostIp shortMac).1.hosts "0a:0b:0c:0d:0e:0f".toList =
        some (NewEndpointWithAlias ipv4Pkg hostIp "0a:0b:0c:0d:0e:0f".toList []) ∧
      (freshLAN.AddIfNew ipv4Pkg hostIp shortMac).1.WasMissed shortMac = true := by
  decide

/-- C9, amended. When `AddIfNew(ip, mac)` creates a host (the pair is not ignored and the
normalized `mac` is not tracked), `WasMissed` of the normalized `mac`, the key of the new
host, is false right afterwards (so `WasMissed(mac)` is false when `mac` is in normalized
form); it is still false after any sequence of calls without a `Remove` of that key; and
after such calls one `Remove` of the key makes it true, unless the key is self's or the
gateway's hardware address. -/
theorem WasMissed_after_create (pkg : NetPkg) (lan : LAN) (ip mac : GoString)
    (hign : lan.shouldIgnore pkg ip (NormalizeMac mac) = false)
    (he : mget lan.hosts (NormalizeMac mac) = none) :
    (lan.AddIfNew pkg ip mac).1.WasMissed (NormalizeMac mac) = false ∧
    (NormalizeMac mac = mac → (lan.AddIfNew pkg ip mac).1.WasMissed mac = false) ∧
    (∀ calls : List Call, (∀ ip', Call.Remove ip' (NormalizeMac mac) ∉ calls) →
      (run pkg (lan.AddIfNew pkg ip mac).1 calls).1.WasMissed (NormalizeMac mac) = false) ∧
    (∀ (calls : List Call) (ip' : GoString),
      (∀ ip'', Call.Remove ip'' (NormalizeMac mac) ∉ calls) →
      NormalizeMac mac ≠ lan.iface.HwAddress → NormalizeMac mac ≠ lan.gateway.HwAddress →
      (((run pkg (lan.AddIfNew pkg ip mac).1 calls).1.Remove ip' (NormalizeMac mac)).1.WasMissed
        (NormalizeMac mac) = true)) := by
  have hcr := AddIfNew_create pkg lan ip mac hign he
  have h1 : ∃ e, mget (lan.AddIfNew pkg ip mac).1.hosts (NormalizeMac mac) = some e := by
    rw [hcr]; exact ⟨_, mget_mset_self _ _ _⟩
  have h2 : mget (lan.AddIfNew pkg ip mac).1.ttl (NormalizeMac mac) = some LANDefaultttl := by
    rw [hcr]; exact mget_mset_self _ _ _
  have hfirst := WasMissed_full _ _ h2
  refine ⟨hfirst, fun hn => ?_, fun calls hc => ?_, fun calls ip' hc hs hg => ?_⟩
  · rw [hn] at hfirst
    exact hfirst
  · exact WasMissed_full _ _ (full_counter_persists pkg _ calls _ h1 h2 hc).2
  · obtain ⟨⟨e, hhe⟩, hht⟩ := full_counter_persists pkg _ calls _ h1 h2 hc
    have hi := run_iface pkg calls (lan.AddIfNew pkg ip mac).1
    have hi0 : (lan.AddIfNew pkg ip mac).1.iface = lan.iface ∧
        (lan.AddIfNew pkg ip mac).1.gateway = lan.gateway := by
      rw [hcr]; exact ⟨rfl, rfl⟩
    have hrm := Remove_decr _ ip' _ e LANDefaultttl hhe hht (by decide) (le_refl _)
    rw [hrm]
    have hs' : ¬ (NormalizeMac mac = (run pkg (lan.AddIfNew pkg ip mac).1 calls).1.iface.HwAddress ∨
        NormalizeMac mac = (run pkg (lan.AddIfNew pkg ip mac).1 calls).1.gateway.HwAddress) := by
      rw [hi.1, hi.2, hi0.1, hi0.2]
      exact fun h => h.elim hs hg
    simp only [LAN.WasMissed, hs', if_false, mget_mset_self]
    decide

/-- Witness of the amended C9: for the host of the examples, in the fresh registry. -/
theorem WasMissed_after_create_witness :
    (freshLAN.AddIfNew ipv4Pkg hostIp hostMac).1.WasMissed (NormalizeMac hostMac) = false ∧
    ((run ipv4Pkg (freshLAN.AddIfNew ipv4Pkg hostIp hostMac).1
        [Call.AddIfNew hostIp hostMac, Call.Remove hostIp shortMac]).1.WasMissed
      (NormalizeMac hostMac) = false) ∧
    (((run ipv4Pkg (freshLAN.AddIfNew ipv4Pkg hostIp hostMac).1 []).1.Remove hostIp
      (NormalizeMac hostMac)).1.WasMissed (NormalizeMac hostMac) = true) :=
  ⟨(WasMissed_after_create ipv4Pkg freshLAN hostIp hostMac (by decide) (by decide)).1,
    (WasMissed_after_create ipv4Pkg freshLAN hostIp hostMac (by decide) (by decide)).2.2.1
      [Call.AddIfNew hostIp hostMac, Call.Remove hostIp shortMac]
      (by
        intro ip' h
        rcases List.mem_cons.1 h with h1 | h2
        · cases h1
        · rcases List.mem_cons.1 h2 with h3 | h4
          · injection h3 with _ hm
            exact absurd hm (by decide)
          · cases h4),
    (WasMissed_after_create ipv4Pkg freshLAN hostIp hostMac (by decide) (by decide)).2.2.2
      [] hostIp (fun _ h => by cases h) (by decide) (by decide)⟩

/-! ## `NormalizeMac` on well-formed addresses -/

theorem Split_no_sep (s : GoString) (sep : Char) (h : sep ∉ s) : Split s sep = [s] := by
  induction s with
  | nil => rfl
  | cons c cs ih =>
    have hc : c ≠ sep := fun hh => h (hh ▸ List.mem_cons_self _ _)
    have hcs : sep ∉ cs := fun hh => h (List.mem_cons_of_mem _ hh)
    simp [Split, hc, ih hcs]

theorem Split_append_sep (p rest : GoString) (sep : Char) (h : sep ∉ p) :
    Split (p ++ sep :: rest) sep = p :: Split rest sep := by
  induction p with
  | nil => simp [Split]
  | cons c cs ih =>
    have hc : c ≠ sep := fun hh => h (hh ▸ List.mem_cons_self _ _)
    have hcs : sep ∉ cs := fun hh => h (List.mem_cons_of_mem _ hh)
    simp [Split, hc, ih hcs]

theorem Split_Join (parts : List GoString) (sep : Char) (hne : parts ≠ [])
    (h : ∀ p ∈ parts, sep ∉ p) : Split (Join parts [sep]) sep = parts := by
  induction parts with
  | nil => exact absurd rfl hne
  | cons p ps ih =>
    cases ps with
    | nil =>
      simp only [Join]
      exact Split_no_sep p sep (h p (List.mem_cons_self _ _))
    | cons q qs =>
      simp only [Join]
      rw [List.append_assoc, List.singleton_append,
        Split_append_sep _ _ _ (h p (List.mem_cons_self _ _)),
        ih (by simp) (fun x hx => h x (List.mem_cons_of_mem _ hx))]

theorem mem_Join (parts : List GoString) (sep c : Char) (h : c ∈ Join parts [sep]) :
    c = sep ∨ ∃ p ∈ parts, c ∈ p := by
  induction parts with
  | nil => simp [Join] at h
  | cons p ps ih =>
    cases ps with
    | nil =>
      simp only [Join] at h
      exact Or.inr ⟨p, List.mem_cons_self _ _, h⟩
    | cons q qs =>
      simp only [Join, List.mem_append, List.mem_singleton] at h
      rcases h with (h | h) | h
      · exact Or.inr ⟨p, List.mem_cons_self _ _, h⟩
      · exact Or.inl h
      · rcases ih h with h' | ⟨x, hx, hcx⟩
        · exact Or.inl h'
        · exact Or.inr ⟨x, List.mem_cons_of_mem _ hx, hcx⟩

theorem ContainsRune_iff (s : GoString) (r : Char) : ContainsRune s r = true ↔ r ∈ s := by
  simp [ContainsRune]

theorem NormalizeMac_of_octets (octets : List GoString) (sep : Char)
    (hsep : sep = '-' ∨ sep = ':') (hne : octets ≠ [])
    (h : ∀ o ∈ octets, '-' ∉ o ∧ ':' ∉ o) :
    NormalizeMac (Join octets [sep]) = Join (octets.map padPart) [':'] := by
  have hparts : (if ContainsRune (Join octets [sep]) '-' then Split (Join octets [sep]) '-'
      else Split (Join octets [sep]) ':') = octets := by
    rcases hsep with rfl | rfl
    · cases octets with
      | nil => exact absurd rfl hne
      | cons p ps =>
        cases ps with
        | nil =>
          have hp := h p (List.mem_cons_self _ _)
          have hc : ¬ (ContainsRune p '-' = true) := fun hh => hp.1 ((ContainsRune_iff _ _).1 hh)
          simp only [Join, hc, if_false]
          exact Split_no_sep p ':' hp.2
        | cons q qs =>
          have hc : ContainsRune (Join (p :: q :: qs) ['-']) '-' = true := by
            rw [ContainsRune_iff]
            simp [Join]
          simp only [hc, if_true]
          exact Split_Join _ _ hne (fun x hx => (h x hx).1)
    · have hc : ¬ (ContainsRune (Join octets [':']) '-' = true) := by
        intro hh
        rcases mem_Join _ _ _ ((ContainsRune_iff _ _).1 hh) with h' | ⟨x, hx, hcx⟩
        · exact absurd h' (by decide)
        · exact (h x hx).1 hcx
      simp only [hc, if_false]
      exact Split_Join _ _ hne (fun x hx => (h x hx).2)
  simp only [NormalizeMac, hparts]

theorem padPart_padPart (o : GoString) (h : 1 ≤ o.length) : padPart (padPart o) = padPart o := by
  by_cases h2 : o.length < 2
  · have : ¬ ((padPart o).length < 2) := by
      simp only [padPart, h2, if_true, List.length_cons]
      omega
    conv_lhs => rw [padPart]
    simp only [this, if_false]
  · simp only [padPart, h2, if_false]

theorem NormalizeMac_fixed (octets : List GoString) (sep : Char)
    (hsep : sep = '-' ∨ sep = ':') (hne : octets ≠ [])
    (h : ∀ o ∈ octets, 1 ≤ o.length ∧ '-' ∉ o ∧ ':' ∉ o) :
    NormalizeMac (NormalizeMac (Join octets [sep])) = NormalizeMac (Join octets [sep]) := by
  rw [NormalizeMac_of_octets octets sep hsep hne (fun o ho => (h o ho).2)]
  have hne' : octets.map padPart ≠ [] := by simpa using hne
  have h' : ∀ o ∈ octets.map padPart, '-' ∉ o ∧ ':' ∉ o := by
    intro o ho
    obtain ⟨o0, ho0, rfl⟩ := List.mem_map.1 ho
    have hh := h o0 ho0
    by_cases h2 : o0.length < 2
    · simp only [padPart, h2, if_true, List.mem_cons, not_or]
      exact ⟨⟨by decide, hh.2.1⟩, ⟨by decide, hh.2.2⟩⟩
    · simp only [padPart, h2, if_false]
      exact hh.2
  rw [NormalizeMac_of_octets _ ':' (Or.inr rfl) hne' h', List.map_map]
  congr 1
  apply List.map_congr_left
  intro o ho
  exact padPart_padPart o (h o ho).1

/-- C10. `NormalizeMac` is idempotent on the valid addresses: when `x` is a non-empty
sequence of octets of one or two characters, none of them `-` or `:`, joined by `-` or
by `:`, `NormalizeMac(NormalizeMac(x)) = NormalizeMac(x)`. -/
theorem NormalizeMac_idempotent (octets : List GoString) (sep : Char)
    (hsep : sep = '-' ∨ sep = ':') (hne : octets ≠ [])
    (hoct : ∀ o ∈ octets, (o.length = 1 ∨ o.length = 2) ∧ '-' ∉ o ∧ ':' ∉ o) :
    NormalizeMac (NormalizeMac (Join octets [sep])) = NormalizeMac (Join octets [sep]) :=
  NormalizeMac_fixed octets sep hsep hne
    (fun o ho => ⟨by rcases (hoct o ho).1 with h | h <;> omega, (hoct o ho).2⟩)

/-- Witness of C10 on `a-bb-c-dd-e-ff`, whose normal form is `0a:bb:0c:dd:0e:ff`. -/
theorem NormalizeMac_idempotent_witness :
    Join ["a".toList, "bb".toList, "c".toList, "dd".toList, "e".toList, "ff".toList] ['-'] =
        "a-bb-c-dd-e-ff".toList ∧
      NormalizeMac "a-bb-c-dd-e-ff".toList = "0a:bb:0c:dd:0e:ff".toList ∧
      NormalizeMac (NormalizeMac
          (Join ["a".toList, "bb".toList, "c".toList, "dd".toList, "e".toList, "ff".toList] ['-'])) =
        NormalizeMac
          (Join ["a".toList, "bb".toList, "c".toList, "dd".toList, "e".toList, "ff".toList] ['-']) :=
  ⟨by decide, by decide,
    NormalizeMac_idempotent
      ["a".toList, "bb".toList, "c".toList, "dd".toList, "e".toList, "ff".toList] '-'
      (Or.inl rfl) (by decide) (by decide)⟩

/-! ## `NormalizeMac` on arbitrary strings -/

theorem Split_ne_nil (s : GoString) (sep : Char) : Split s sep ≠ [] := by
  induction s with
  | nil => simp [Split]
  | cons c cs ih =>
    by_cases hc : c = sep
    · simp [Split, hc]
    · cases hs : Split cs sep with
      | nil => exact absurd hs ih
      | cons p ps => simp [Split, hc, hs]

theorem Join_Split (s : GoString) (sep : Char) : Join (Split s sep) [sep] = s := by
  induction s with
  | nil => simp [Split, Join]
  | cons c cs ih =>
    by_cases hc : c = sep
    · cases hs : Split cs sep with
      | nil => exact absurd hs (Split_ne_nil cs sep)
      | cons p ps =>
        rw [hs] at ih
        simp [Split, hc, hs, Join, ih]
    · cases hs : Split cs sep with
      | nil => exact absurd hs (Split_ne_nil cs sep)
      | cons p ps =>
        rw [hs] at ih
        cases ps with
        | nil =>
          simp only [Join] at ih
          simp [Split, hc, hs, Join, ih]
        | cons q qs =>
          simp only [Join] at ih
          simp only [Split, hc, hs, if_false, Join]
          rw [← ih]
          simp

theorem Split_parts_no_sep (s : GoString) (sep : Char) : ∀ p ∈ Split s sep, sep ∉ p := by
  induction s with
  | nil => simp [Split]
  | cons c cs ih =>
    by_cases hc : c = sep
    · intro p hp
      simp only [Split, hc, if_true, List.mem_cons] at hp
      rcases hp with rfl | hp
      · simp
      · exact ih p hp
    · cases hs : Split cs sep with
      | nil => exact absurd hs (Split_ne_nil cs sep)
      | cons q qs =>
        rw [hs] at ih
        intro p hp
        simp only [Split, hc, hs, if_false, List.mem_cons] at hp
        rcases hp with rfl | hp
        · intro hm
          rcases List.mem_cons.1 hm with h | h
          · exact hc h.symm
          · exact ih q (List.mem_cons_self _ _) h
        · exact ih p (List.mem_cons_of_mem _ hp)

/-- C11. For every list of octet strings none of which contains `-` or `:`,
`NormalizeMac` of the octets joined with `-` is `NormalizeMac` of the octets joined
with `:`. -/
theorem NormalizeMac_delimiter_independent (octets : List GoString)
    (h : ∀ o ∈ octets, '-' ∉ o ∧ ':' ∉ o) :
    NormalizeMac (Join octets ['-']) = NormalizeMac (Join octets [':']) := by
  cases octets with
  | nil => rfl
  | cons p ps =>
    rw [NormalizeMac_of_octets (p :: ps) '-' (Or.inl rfl) (by simp) h,
      NormalizeMac_of_octets (p :: ps) ':' (Or.inr rfl) (by simp) h]

/-- Witness of C11: `a-bb-c` and `a:bb:c` both normalize to `0a:bb:0c`. -/
theorem NormalizeMac_delimiter_independent_witness :
    NormalizeMac (Join ["a".toList, "bb".toList, "c".toList] ['-']) =
        NormalizeMac (Join ["a".toList, "bb".toList, "c".toList] [':']) ∧
      Join ["a".toList, "bb".toList, "c".toList] ['-'] = "a-bb-c".toList ∧
      Join ["a".toList, "bb".toList, "c".toList] [':'] = "a:bb:c".toList ∧
      NormalizeMac "a-bb-c".toList = "0a:bb:0c".toList :=
  ⟨NormalizeMac_delimiter_independent ["a".toList, "bb".toList, "c".toList] (by decide),
    by decide, by decide, by decide⟩

/-- C12. For every input string, `NormalizeMac` takes the pieces of the input between the
separators, the separator being `-` when the input contains a `-` and `:` otherwise; it
turns every piece of a single character into "0" followed by that character, keeps every
piece of two or more characters as it is, and returns the resulting pieces, in the same
order, joined with `:`. (A piece of no character at all, which the sentence does not
cover, becomes "0".) -/
theorem NormalizeMac_pieces (mac : GoString) :
    ∃ (sep : Char) (parts out : List GoString),
      (('-' ∈ mac → sep = '-') ∧ ('-' ∉ mac → sep = ':')) ∧
      parts = Split mac sep ∧ Join parts [sep] = mac ∧ (∀ p ∈ parts, sep ∉ p) ∧
      List.Forall₂ (fun p q : GoString =>
        (p.length = 1 → q = '0' :: p) ∧ (2 ≤ p.length → q = p) ∧ (p.length = 0 → q = ['0']))
        parts out ∧
      NormalizeMac mac = Join out [':'] := by
  have hf : ∀ parts : List GoString, List.Forall₂ (fun p q : GoString =>
      (p.length = 1 → q = '0' :: p) ∧ (2 ≤ p.length → q = p) ∧ (p.length = 0 → q = ['0']))
      parts (parts.map padPart) := by
    intro parts
    induction parts with
    | nil => exact List.Forall₂.nil
    | cons p ps ih =>
      refine List.Forall₂.cons ⟨fun h1 => ?_, fun h2 => ?_, fun h0 => ?_⟩ ih
      · simp [padPart, h1]
      · have : ¬ p.length < 2 := by omega
        simp [padPart, this]
      · have hp : p = [] := List.length_eq_zero.1 h0
        subst hp
        simp [padPart]
  by_cases hc : '-' ∈ mac
  · refine ⟨'-', Split mac '-', (Split mac '-').map padPart,
      ⟨fun _ => rfl, fun hn => absurd hc hn⟩, rfl, Join_Split _ _, Split_parts_no_sep _ _,
      hf _, ?_⟩
    have hcr : ContainsRune mac '-' = true := (ContainsRune_iff _ _).2 hc
    simp only [NormalizeMac, hcr, if_true]
  · refine ⟨':', Split mac ':', (Split mac ':').map padPart,
      ⟨fun h => absurd h hc, fun _ => rfl⟩, rfl, Join_Split _ _, Split_parts_no_sep _ _,
      hf _, ?_⟩
    have hcr : ¬ (ContainsRune mac '-' = true) := fun h => hc ((ContainsRune_iff _ _).1 h)
    simp only [NormalizeMac, hcr, Bool.false_eq_true, if_false]

/-- Witness of C12 on `A-b-cc`: the pieces are `A`, `b`, `cc`, and the result is `0A:0b:cc`,
with the case of `A` kept. -/
theorem NormalizeMac_pieces_witness :
    (∃ (sep : Char) (parts out : List GoString),
      (('-' ∈ "A-b-cc".toList → sep = '-') ∧ ('-' ∉ "A-b-cc".toList → sep = ':')) ∧
      parts = Split "A-b-cc".toList sep ∧ Join parts [sep] = "A-b-cc".toList ∧
      (∀ p ∈ parts, sep ∉ p) ∧
      List.Forall₂ (fun p q : GoString =>
        (p.length = 1 → q = '0' :: p) ∧ (2 ≤ p.length → q = p) ∧ (p.length = 0 → q = ['0']))
        parts out ∧
      NormalizeMac "A-b-cc".toList = Join out [':']) ∧
    NormalizeMac "A-b-cc".toList = "0A:0b:cc".toList :=
  ⟨NormalizeMac_pieces "A-b-cc".toList, by decide⟩

/-! ## Where the keys come from -/

theorem KeysFrom_step (pkg : NetPkg) (lan : LAN) (c : Call) (done : List Call)
    (h : ∀ k e, mget lan.hosts k = some e →
      ∃ ip m, Call.AddIfNew ip m ∈ done ∧ k = NormalizeMac m) :
    ∀ k e, mget (step pkg lan c).1.hosts k = some e →
      ∃ ip m, Call.AddIfNew ip m ∈ done ++ [c] ∧ k = NormalizeMac m := by
  have hold : ∀ k e, mget lan.hosts k = some e →
      ∃ ip m, Call.AddIfNew ip m ∈ done ++ [c] ∧ k = NormalizeMac m := by
    intro k e hke
    obtain ⟨ip, m, hm, hk⟩ := h k e hke
    exact ⟨ip, m, List.mem_append_left _ hm, hk⟩
  intro k e hke
  cases c with
  | AddIfNew ip mac =>
    simp only [step] at hke
    by_cases hk : NormalizeMac mac = k
    · exact ⟨ip, mac, by simp, hk.symm⟩
    · rw [(AddIfNew_frame pkg lan ip mac k hk).1] at hke
      exact hold k e hke
  | Remove ip mac =>
    simp only [step] at hke
    rcases Remove_hosts lan ip mac with hh | hh
    · rw [hh] at hke
      exact hold k e hke
    · rw [hh] at hke
      by_cases hk : mac = k
      · subst hk
        rw [mget_mdel_self] at hke
        cases hke
      · rw [mget_mdel_ne _ _ _ hk] at hke
        exact hold k e hke
  | SetAliasFor mac al =>
    simp only [step] at hke
    cases he : mget lan.hosts (NormalizeMac mac) with
    | none =>
      rw [SetAliasFor_absent lan mac al he] at hke
      exact hold k e hke
    | some e0 =>
      rw [SetAliasFor_tracked lan mac al e0 he] at hke
      by_cases hk : NormalizeMac mac = k
      · subst hk
        exact hold _ e0 he
      · simp only [mget_mset_ne _ _ _ _ hk] at hke
        exact hold k e hke

theorem KeysFrom_run (pkg : NetPkg) (calls : List Call) (lan : LAN) (done : List Call)
    (h : ∀ k e, mget lan.hosts k = some e →
      ∃ ip m, Call.AddIfNew ip m ∈ done ∧ k = NormalizeMac m) :
    ∀ k e, mget (run pkg lan calls).1.hosts k = some e →
      ∃ ip m, Call.AddIfNew ip m ∈ done ++ calls ∧ k = NormalizeMac m := by
  induction calls generalizing lan done with
  | nil => simpa [run] using h
  | cons c cs ih =>
    have hs := ih (step pkg lan c).1 (done ++ [c]) (KeysFrom_step pkg lan c done h)
    simpa [run] using hs

/-- C13, as stated, fails: after `AddIfNew("10.0.0.5", "")` on the fresh registry the key
of the stored host, in `hosts` and in `ttl`, is "0", and `NormalizeMac("0")` is "00". -/
theorem key_not_in_normal_form :
    Reachable ipv4Pkg emptyMacLAN ∧
    (∃ e, mget emptyMacLAN.hosts "0".toList = some e) ∧
    mget emptyMacLAN.ttl "0".toList = some 10 ∧
    NormalizeMac "0".toList = "00".toList ∧ NormalizeMac "0".toList ≠ "0".toList :=
  ⟨⟨selfEndpoint, gatewayEndpoint, [], _, rfl⟩,
    ⟨NewEndpointWithAlias ipv4Pkg hostIp "0".toList [], by decide⟩,
    by decide, by decide, by decide⟩

/-- C13, amended. In the registry any sequence of calls produces from `NewLAN`, every key
of `hosts` and of `ttl` is the result of `NormalizeMac` on the `mac` argument of some
`AddIfNew` call of the sequence; and when those arguments are all valid MAC strings, every
key `k` satisfies `NormalizeMac(k) = k`. -/
theorem keys_come_from_NormalizeMac (pkg : NetPkg) (iface gateway : Endpoint)
    (aliases : Aliases) (calls : List Call) (k : GoString)
    (hk : (∃ e, mget (run pkg (NewLAN iface gateway aliases) calls).1.hosts k = some e) ∨
      (∃ t, mget (run pkg (NewLAN iface gateway aliases) calls).1.ttl k = some t)) :
    (∃ ip m, Call.AddIfNew ip m ∈ calls ∧ k = NormalizeMac m) ∧
    ((∀ ip m, Call.AddIfNew ip m ∈ calls → ValidMac m) → NormalizeMac k = k) := by
  have hinv := TtlInv_of_Reachable pkg _ ⟨iface, gateway, aliases, calls, rfl⟩ k
  have hhost : ∃ e, mget (run pkg (NewLAN iface gateway aliases) calls).1.hosts k = some e := by
    rcases hk with hh | ⟨t, ht⟩
    · exact hh
    · cases he : mget (run pkg (NewLAN iface gateway aliases) calls).1.hosts k with
      | none =>
        rw [hinv.2 he] at ht
        cases ht
      | some e => exact ⟨e, rfl⟩
  obtain ⟨e, he⟩ := hhost
  have hfrom := KeysFrom_run pkg calls (NewLAN iface gateway aliases) []
    (by intro k e hke; simp [NewLAN, mget] at hke) k e he
  simp only [List.nil_append] at hfrom
  refine ⟨hfrom, fun hv => ?_⟩
  obtain ⟨ip, m, hm, rfl⟩ := hfrom
  obtain ⟨octets, sep, hsep, hne, hoct, rfl⟩ := hv ip m hm
  exact NormalizeMac_fixed octets sep hsep hne
    (fun o ho => ⟨by rcases (hoct o ho).1 with h | h <;> omega, (hoct o ho).2⟩)

theorem ValidMac_hostMac : ValidMac hostMac :=
  ⟨["aa".toList, "bb".toList, "cc".toList, "dd".toList, "ee".toList, "ff".toList], ':',
    Or.inr rfl, by decide, by decide, by decide⟩

/-- Witness of the amended C13 on the one-host registry, whose only call has the valid
address `aa:bb:cc:dd:ee:ff`. -/
theorem keys_come_from_NormalizeMac_witness :
    (∃ ip m, Call.AddIfNew ip m ∈ [Call.AddIfNew hostIp hostMac] ∧ hostMac = NormalizeMac m) ∧
      NormalizeMac hostMac = hostMac :=
  ⟨(keys_come_from_NormalizeMac ipv4Pkg selfEndpoint gatewayEndpoint []
      [Call.AddIfNew hostIp hostMac] hostMac (Or.inr ⟨10, by decide⟩)).1,
    (keys_come_from_NormalizeMac ipv4Pkg selfEndpoint gatewayEndpoint []
      [Call.AddIfNew hostIp hostMac] hostMac (Or.inr ⟨10, by decide⟩)).2
      (by
        intro ip m hm
        rcases List.mem_cons.1 hm with h1 | h2
        · injection h1 with _ hmac
          rw [hmac]
          exact ValidMac_hostMac
        · cases h2)⟩


/-- C14. For every registry, `mac` and alias: `SetAliasFor(mac, alias)` returns true exactly
when the normalized `mac` is a key of `hosts`. When it is, the Endpoint under that key is
the old one with `Alias` set to the alias, the alias store is the old one after
`Set(normalized mac, alias)` and yields the alias for the normalized `mac`, every other
entry of `hosts` is as before, the keys of `hosts` are the same and `ttl` is untouched.
When it is not, the registry, alias store included, is as it was. -/
theorem SetAliasFor_cases (lan : LAN) (mac al : GoString) :
    ((lan.SetAliasFor mac al).2 = true ↔ ∃ e, mget lan.hosts (NormalizeMac mac) = some e) ∧
    (∀ e, mget lan.hosts (NormalizeMac mac) = some e →
      (lan.SetAliasFor mac al).2 = true ∧
      mget (lan.SetAliasFor mac al).1.hosts (NormalizeMac mac) = some { e with Alias := al } ∧
      (lan.SetAliasFor mac al).1.aliases = lan.aliases.Set (NormalizeMac mac) al ∧
      (lan.SetAliasFor mac al).1.aliases.Get (NormalizeMac mac) = al ∧
      (∀ k, k ≠ NormalizeMac mac →
        mget (lan.SetAliasFor mac al).1.hosts k = mget lan.hosts k) ∧
      (∀ k, (∃ e', mget (lan.SetAliasFor mac al).1.hosts k = some e') ↔
        (∃ e', mget lan.hosts k = some e')) ∧
      (lan.SetAliasFor mac al).1.ttl = lan.ttl) ∧
    (mget lan.hosts (NormalizeMac mac) = none → lan.SetAliasFor mac al = (lan, false)) := by
  refine ⟨?_, fun e he => ?_, fun hn => SetAliasFor_absent lan mac al hn⟩
  · cases he : mget lan.hosts (NormalizeMac mac) with
    | none => simp [SetAliasFor_absent lan mac al he]
    | some e => simp [SetAliasFor_tracked lan mac al e he]
  · rw [SetAliasFor_tracked lan mac al e he]
    refine ⟨rfl, mget_mset_self _ _ _, rfl, ?_, fun k hk => mget_mset_ne _ _ _ _ (Ne.symm hk),
      fun k => ?_, rfl⟩
    · simp [Aliases.Get, Aliases.Set, mget_mset_self]
    · by_cases hk : NormalizeMac mac = k
      · subst hk
        simp only [mget_mset_self]
        exact ⟨fun _ => ⟨e, he⟩, fun _ => ⟨_, rfl⟩⟩
      · simp only [mget_mset_ne _ _ _ _ hk]

/-- Witness of C14: naming the host of the one-host registry "printer" succeeds, and naming
an address that is not tracked leaves the registry as it was. -/
theorem SetAliasFor_cases_witness :
    ((oneHostLAN.SetAliasFor hostMac "printer".toList).2 = true ∧
      mget (oneHostLAN.SetAliasFor hostMac "printer".toList).1.hosts (NormalizeMac hostMac) =
        some { hostEndpoint with Alias := "printer".toList } ∧
      (oneHostLAN.SetAliasFor hostMac "printer".toList).1.aliases =
        oneHostLAN.aliases.Set (NormalizeMac hostMac) "printer".toList ∧
      (oneHostLAN.SetAliasFor hostMac "printer".toList).1.aliases.Get (NormalizeMac hostMac) =
        "printer".toList ∧
      (∀ k, k ≠ NormalizeMac hostMac →
        mget (oneHostLAN.SetAliasFor hostMac "printer".toList).1.hosts k =
          mget oneHostLAN.hosts k) ∧
      (∀ k, (∃ e', mget (oneHostLAN.SetAliasFor hostMac "printer".toList).1.hosts k = some e') ↔
        (∃ e', mget oneHostLAN.hosts k = some e')) ∧
      (oneHostLAN.SetAliasFor hostMac "printer".toList).1.ttl = oneHostLAN.ttl) ∧
    oneHostLAN.SetAliasFor shortMac "printer".toList = (oneHostLAN, false) :=
  ⟨(SetAliasFor_cases oneHostLAN hostMac "printer".toList).2.1 hostEndpoint (by decide),
    (SetAliasFor_cases oneHostLAN shortMac "printer".toList).2.2 (by decide)⟩

/-- C19. In every registry reachable from `NewLAN`, every value stored in `ttl` is at least
1; so whenever `Remove` finds its key in `hosts`, the counter it decrements is at least 1
and the `uint` decrement yields that counter minus one, without wrapping. -/
theorem ttl_never_zero (pkg : NetPkg) (lan : LAN) (hr : Reachable pkg lan) :
    (∀ (mac : GoString) (t : Nat), mget lan.ttl mac = some t → 1 ≤ t) ∧
    (∀ (mac : GoString) (e : Endpoint), mget lan.hosts mac = some e →
      1 ≤ (mget lan.ttl mac).getD 0 ∧
      ((mget lan.ttl mac).getD 0 + uintRange - 1) % uintRange = (mget lan.ttl mac).getD 0 - 1) := by
  have hinv := TtlInv_of_Reachable pkg lan hr
  constructor
  · intro mac t ht
    cases he : mget lan.hosts mac with
    | none =>
      rw [(hinv mac).2 he] at ht
      cases ht
    | some e =>
      obtain ⟨c, hc, h1, _⟩ := (hinv mac).1 e he
      rw [ht] at hc
      cases hc
      exact h1
  · intro mac e he
    obtain ⟨c, hc, h1, h10⟩ := (hinv mac).1 e he
    rw [hc]
    exact ⟨h1, uint_decr c h1 h10⟩

/-- Witness of C19 on the one-host registry. -/
theorem ttl_never_zero_witness :
    1 ≤ (mget oneHostLAN.ttl hostMac).getD 0 ∧
      ((mget oneHostLAN.ttl hostMac).getD 0 + uintRange - 1) % uintRange =
        (mget oneHostLAN.ttl hostMac).getD 0 - 1 :=
  (ttl_never_zero ipv4Pkg oneHostLAN Reachable_oneHostLAN).2 hostMac hostEndpoint (by decide)


/-! ## Counting hosts and callbacks -/

theorem mget_none_of_not_mem_mkeys {V : Type} (m : GoMap V) (k : GoString)
    (h : k ∉ mkeys m) : mget m k = none := by
  induction m with
  | nil => rfl
  | cons hd tl ih =>
    obtain ⟨k0, v0⟩ := hd
    simp only [mkeys, List.map_cons, List.mem_cons, not_or] at h
    have hk : ¬ k0 = k := fun hh => h.1 hh.symm
    simp only [mget, hk, if_false]
    exact ih h.2

theorem not_mem_mkeys_of_mget_none {V : Type} (m : GoMap V) (k : GoString)
    (h : mget m k = none) : k ∉ mkeys m := by
  induction m with
  | nil => simp [mkeys]
  | cons hd tl ih =>
    obtain ⟨k0, v0⟩ := hd
    by_cases hk : k0 = k
    · simp [mget, hk] at h
    · simp only [mget, hk, if_false] at h
      simp only [mkeys, List.map_cons, List.mem_cons, not_or]
      exact ⟨fun hh => hk hh.symm, ih h⟩

theorem mkeys_mset_present {V : Type} (m : GoMap V) (k : GoString) (v v0 : V)
    (h : mget m k = some v0) : mkeys (mset m k v) = mkeys m := by
  induction m with
  | nil => simp [mget] at h
  | cons hd tl ih =>
    obtain ⟨k1, v1⟩ := hd
    by_cases hk : k1 = k
    · simp [mset, hk, mkeys]
    · simp only [mget, hk, if_false] at h
      have := ih h
      simp only [mkeys] at this
      simp [mset, hk, mkeys, this]

theorem length_mset_present {V : Type} (m : GoMap V) (k : GoString) (v v0 : V)
    (h : mget m k = some v0) : (mset m k v).length = m.length := by
  have := congrArg List.length (mkeys_mset_present m k v v0 h)
  simpa [mkeys] using this

theorem mkeys_mdel_nodup {V : Type} (m : GoMap V) (k : GoString)
    (h : (mkeys m).Nodup) : (mkeys (mdel m k)).Nodup := by
  induction m with
  | nil => simp [mdel, mkeys]
  | cons hd tl ih =>
    obtain ⟨k0, v0⟩ := hd
    simp only [mkeys, List.map_cons, List.nodup_cons] at h
    by_cases hk : k0 = k
    · simp only [mdel, hk, if_true]
      exact ih h.2
    · simp only [mdel, hk, if_false, mkeys, List.map_cons, List.nodup_cons]
      refine ⟨fun hm => ?_, ih h.2⟩
      have h1 : mget (mdel tl k) k0 = none := by
        rw [mget_mdel_ne _ _ _ (Ne.symm hk)]
        exact mget_none_of_not_mem_mkeys tl k0 h.1
      exact not_mem_mkeys_of_mget_none _ _ h1 hm

theorem length_mdel_present {V : Type} (m : GoMap V) (k : GoString) (v : V)
    (hn : (mkeys m).Nodup) (h : mget m k = some v) : (mdel m k).length + 1 = m.length := by
  induction m with
  | nil => simp [mget] at h
  | cons hd tl ih =>
    obtain ⟨k0, v0⟩ := hd
    simp only [mkeys, List.map_cons, List.nodup_cons] at hn
    by_cases hk : k0 = k
    · subst hk
      have habs : mget tl k0 = none := mget_none_of_not_mem_mkeys tl k0 hn.1
      simp [mdel, mdel_of_absent tl k0 habs]
    · simp only [mget, hk, if_false] at h
      simp only [mdel, hk, if_false, List.length_cons]
      have := ih hn.2 h
      omega

theorem newCount_append (a b : List Event) : newCount (a ++ b) = newCount a + newCount b := by
  induction a with
  | nil => simp [newCount]
  | cons e es ih =>
    cases e with
    | newCb x =>
      have hc : (Event.newCb x :: es) ++ b = Event.newCb x :: (es ++ b) := rfl
      rw [hc]
      simp only [newCount, ih]
      omega
    | lostCb x =>
      have hc : (Event.lostCb x :: es) ++ b = Event.lostCb x :: (es ++ b) := rfl
      rw [hc]
      simp only [newCount, ih]

theorem lostCount_append (a b : List Event) :
    lostCount (a ++ b) = lostCount a + lostCount b := by
  induction a with
  | nil => simp [lostCount]
  | cons e es ih =>
    cases e with
    | newCb x =>
      have hc : (Event.newCb x :: es) ++ b = Event.newCb x :: (es ++ b) := rfl
      rw [hc]
      simp only [lostCount, ih]
    | lostCb x =>
      have hc : (Event.lostCb x :: es) ++ b = Event.lostCb x :: (es ++ b) := rfl
      rw [hc]
      simp only [lostCount, ih]
      omega

theorem step_counts (pkg : NetPkg) (lan : LAN) (c : Call) (hn : (mkeys lan.hosts).Nodup) :
    (mkeys (step pkg lan c).1.hosts).Nodup ∧
      (step pkg lan c).1.hosts.length + lostCount (step pkg lan c).2 =
        lan.hosts.length + newCount (step pkg lan c).2 ∧
      (step pkg lan c).2.length ≤ 1 := by
  cases c with
  | AddIfNew ip mac =>
    simp only [step]
    cases h : lan.shouldIgnore pkg ip (NormalizeMac mac) with
    | true =>
      rw [AddIfNew_ignored pkg lan ip mac h]
      exact ⟨hn, rfl, Nat.zero_le _⟩
    | false =>
      cases he : mget lan.hosts (NormalizeMac mac) with
      | none =>
        rw [AddIfNew_create pkg lan ip mac h he]
        simp only [mset_of_absent _ _ _ he]
        refine ⟨?_, by simp [lostCount, newCount], le_refl _⟩
        simp only [mkeys, List.map_append, List.map_cons, List.map_nil]
        rw [List.nodup_append]
        refine ⟨hn, List.nodup_singleton _, ?_⟩
        intro a ha hb
        rw [List.mem_singleton] at hb
        subst hb
        exact not_mem_mkeys_of_mget_none _ _ he ha
      | some e =>
        simp only [LAN.AddIfNew, h, he, Bool.false_eq_true, if_false]
        by_cases hlt : (mget lan.ttl (NormalizeMac mac)).getD 0 < LANDefaultttl
        · simp only [hlt, if_true]
          exact ⟨hn, rfl, Nat.zero_le _⟩
        · simp only [hlt, if_false]
          exact ⟨hn, rfl, Nat.zero_le _⟩
  | Remove ip mac =>
    simp only [step]
    cases he : mget lan.hosts mac with
    | none =>
      rw [Remove_absent lan ip mac he]
      exact ⟨hn, rfl, Nat.zero_le _⟩
    | some e =>
      simp only [LAN.Remove, he]
      by_cases h0 : ((mget lan.ttl mac).getD 0 + uintRange - 1) % uintRange = 0
      · simp only [h0, if_true]
        exact ⟨mkeys_mdel_nodup _ _ hn, length_mdel_present _ _ e hn he, le_refl _⟩
      · simp only [h0, if_false]
        exact ⟨hn, rfl, Nat.zero_le _⟩
  | SetAliasFor mac al =>
    simp only [step]
    cases he : mget lan.hosts (NormalizeMac mac) with
    | none =>
      rw [SetAliasFor_absent lan mac al he]
      exact ⟨hn, rfl, Nat.zero_le _⟩
    | some e =>
      rw [SetAliasFor_tracked lan mac al e he]
      simp only [mkeys_mset_present _ _ _ _ he, length_mset_present _ _ _ _ he]
      exact ⟨hn, rfl, Nat.zero_le _⟩

theorem run_counts (pkg : NetPkg) (calls : List Call) (lan : LAN)
    (hn : (mkeys lan.hosts).Nodup) :
    (mkeys (run pkg lan calls).1.hosts).Nodup ∧
      (run pkg lan calls).1.hosts.length + lostCount (run pkg lan calls).2 =
        lan.hosts.length + newCount (run pkg lan calls).2 := by
  induction calls generalizing lan with
  | nil => exact ⟨hn, rfl⟩
  | cons c cs ih =>
    have hs := step_counts pkg lan c hn
    have hr := ih (step pkg lan c).1 hs.1
    refine ⟨hr.1, ?_⟩
    simp only [run, newCount_append, lostCount_append]
    have h1 := hs.2.1
    have h2 := hr.2
    omega

/-- C20. For every finite sequence of `AddIfNew`, `Remove` and `SetAliasFor` calls applied
to a fresh registry, the number of tracked hosts at the end (the entries of `hosts`, whose
keys are pairwise distinct) is the number of new-host callback invocations minus the number
of lost-host callback invocations; and a single call, in any registry, invokes at most one
callback. -/
theorem hosts_count_matches_callbacks (pkg : NetPkg) (iface gateway : Endpoint)
    (aliases : Aliases) (calls : List Call) :
    (mkeys (run pkg (NewLAN iface gateway aliases) calls).1.hosts).Nodup ∧
    (run pkg (NewLAN iface gateway aliases) calls).1.hosts.length =
      newCount (run pkg (NewLAN iface gateway aliases) calls).2 -
        lostCount (run pkg (NewLAN iface gateway aliases) calls).2 ∧
    lostCount (run pkg (NewLAN iface gateway aliases) calls).2 ≤
      newCount (run pkg (NewLAN iface gateway aliases) calls).2 ∧
    (∀ (lan : LAN) (c : Call), (step pkg lan c).2.length ≤ 1) := by
  have h := run_counts pkg calls (NewLAN iface gateway aliases) (by simp [NewLAN, mkeys])
  have h0 : (NewLAN iface gateway aliases).hosts.length = 0 := rfl
  refine ⟨h.1, by omega, by omega, fun lan c => ?_⟩
  cases c with
  | AddIfNew ip mac =>
    simp only [step]
    cases hi : lan.shouldIgnore pkg ip (NormalizeMac mac) with
    | true =>
      rw [AddIfNew_ignored pkg lan ip mac hi]
      exact Nat.zero_le _
    | false =>
      cases he : mget lan.hosts (NormalizeMac mac) with
      | none =>
        rw [AddIfNew_create pkg lan ip mac hi he]
        exact le_refl _
      | some e =>
        simp only [LAN.AddIfNew, hi, he, Bool.false_eq_true, if_false]
        by_cases hlt : (mget lan.ttl (NormalizeMac mac)).getD 0 < LANDefaultttl
        · simp only [hlt, if_true]
          exact Nat.zero_le _
        · simp only [hlt, if_false]
          exact Nat.zero_le _
  | Remove ip mac =>
    simp only [step]
    cases he : mget lan.hosts mac with
    | none =>
      rw [Remove_absent lan ip mac he]
      exact Nat.zero_le _
    | some e =>
      simp only [LAN.Remove, he]
      by_cases h0 : ((mget lan.ttl mac).getD 0 + uintRange - 1) % uintRange = 0
      · simp only [h0, if_true]
        exact le_refl _
      · simp only [h0, if_false]
        exact Nat.zero_le _
  | SetAliasFor mac al =>
    simp only [step]
    exact Nat.zero_le _


/-! ## The interface resolver -/

theorem checkAddrs_snd (name : GoString) (addrs : List GoString) (st : Bool × Bool) :
    (checkAddrs name addrs st).2 = (st.2 || addrs.any IPv4Validator) := by
  induction addrs generalizing st with
  | nil => simp [checkAddrs]
  | cons a rest ih =>
    rw [checkAddrs, ih]
    cases h : IPv4Validator a <;> cases h2 : st.2 <;> simp [h, h2]

theorem checkAddrs_fst (name : GoString) (addrs : List GoString) (st : Bool × Bool) :
    (checkAddrs name addrs st).1 = true ↔
      st.1 = true ∨ (name ≠ [] ∧ ∃ a ∈ addrs, a = name ∨ HasPrefix a name = true) := by
  induction addrs generalizing st with
  | nil => simp [checkAddrs]
  | cons a rest ih =>
    rw [checkAddrs, ih]
    by_cases hc : name ≠ [] ∧ (a = name ∨ HasPrefix a name = true)
    · rw [if_pos hc]
      exact ⟨fun _ => Or.inr ⟨hc.1, a, List.mem_cons_self _ _, hc.2⟩, fun _ => Or.inl rfl⟩
    · rw [if_neg hc]
      constructor
      · rintro (h | ⟨hn, x, hx, hxa⟩)
        · exact Or.inl h
        · exact Or.inr ⟨hn, x, List.mem_cons_of_mem _ hx, hxa⟩
      · rintro (h | ⟨hn, x, hx, hxa⟩)
        · exact Or.inl h
        · rcases List.mem_cons.1 hx with rfl | hx'
          · exact absurd ⟨hn, hxa⟩ hc
          · exact Or.inr ⟨hn, x, hx', hxa⟩

theorem doCheckByName_iff (name : GoString) (iface : Interface) (n : Nat) :
    doCheckByName name iface n = true ↔
      (name ≠ [] ∧ name = iface.HardwareAddr) ∨
      (name = [] ∧ iface.Name ≠ "lo".toList ∧ iface.Name ≠ "lo0".toList ∧ 0 < n) ∨
      iface.Name = name := by
  unfold doCheckByName
  by_cases h1 : name ≠ [] ∧ name = iface.HardwareAddr
  · rw [if_pos h1]
    exact ⟨fun _ => Or.inl h1, fun _ => rfl⟩
  · rw [if_neg h1]
    by_cases h2 : name = [] ∧ iface.Name ≠ "lo".toList ∧ iface.Name ≠ "lo0".toList ∧ n > 0
    · rw [if_pos h2]
      exact ⟨fun _ => Or.inr (Or.inl h2), fun _ => rfl⟩
    · rw [if_neg h2]
      by_cases h3 : iface.Name = name
      · rw [if_pos h3]
        exact ⟨fun _ => Or.inr (Or.inr h3), fun _ => rfl⟩
      · rw [if_neg h3]
        constructor
        · intro h
          cases h
        · rintro (h | h | h)
          · exact absurd h h1
          · exact absurd h h2
          · exact absurd h h3

/-- The test of lines 66-86 in the words of the spec. -/
theorem selected_iff (name : GoString) (iface : Interface) (addrs : List GoString) :
    (checkAddrs name addrs (doCheckByName name iface addrs.length, false)).1 = true ↔
      (name ≠ [] ∧ name = iface.HardwareAddr) ∨
      (name = [] ∧ iface.Name ≠ "lo".toList ∧ iface.Name ≠ "lo0".toList ∧ 0 < addrs.length) ∨
      iface.Name = name ∨
      (name ≠ [] ∧ ∃ a ∈ addrs, a = name ∨ HasPrefix a name = true) := by
  rw [checkAddrs_fst, doCheckByName_iff]
  constructor
  · rintro ((h | h | h) | h)
    · exact Or.inl h
    · exact Or.inr (Or.inl h)
    · exact Or.inr (Or.inr (Or.inl h))
    · exact Or.inr (Or.inr (Or.inr h))
  · rintro (h | h | h | h)
    · exact Or.inl (Or.inl h)
    · exact Or.inl (Or.inr (Or.inl h))
    · exact Or.inl (Or.inr (Or.inr h))
    · exact Or.inr h

theorem findInterfaceIn_skip (pkg : NetPkg) (ipString : List Nat → GoString) (name : GoString)
    (pre rest : List Interface)
    (hpre : ∀ i ∈ pre, tryInterface pkg ipString name i = none) :
    findInterfaceIn pkg ipString name (pre ++ rest) = findInterfaceIn pkg ipString name rest := by
  induction pre with
  | nil => rfl
  | cons i is ih =>
    have h1 := hpre i (List.mem_cons_self _ _)
    have h2 := ih (fun j hj => hpre j (List.mem_cons_of_mem _ hj))
    show findInterfaceIn pkg ipString name (i :: (is ++ rest)) = _
    rw [findInterfaceIn, h1]
    exact h2

theorem tryInterface_selected (pkg : NetPkg) (ipString : List Nat → GoString)
    (name : GoString) (iface : Interface) (addrs : List GoString)
    (haddrs : iface.Addrs = some addrs)
    (hsel : (checkAddrs name addrs (doCheckByName name iface addrs.length, false)).1 = true) :
    tryInterface pkg ipString name iface =
      match buildEndpoint pkg ipString iface addrs (addrs.any IPv4Validator) with
      | some e =>
        if e.HW.length = 0 then some (none, some errNoHardwareAddress)
        else some (some { e with Index := iface.Index }, none)
      | none => none := by
  simp only [tryInterface, haddrs, hsel, if_true, checkAddrs_snd, Bool.false_or]

theorem tryInterface_not_selected (pkg : NetPkg) (ipString : List Nat → GoString)
    (name : GoString) (iface : Interface) (addrs : List GoString)
    (haddrs : iface.Addrs = some addrs)
    (hsel : ¬ (checkAddrs name addrs (doCheckByName name iface addrs.length, false)).1 = true) :
    tryInterface pkg ipString name iface = none := by
  have hf : (checkAddrs name addrs (doCheckByName name iface addrs.length, false)).1 = false := by
    cases h : (checkAddrs name addrs (doCheckByName name iface addrs.length, false)).1 with
    | true => exact absurd h hsel
    | false => rfl
  simp only [tryInterface, haddrs, hf, Bool.false_eq_true, if_false]

theorem FindInterface_at (pkg : NetPkg) (ipString : List Nat → GoString) (name : GoString)
    (pre post : List Interface) (iface : Interface) (addrs : List GoString)
    (hpre : ∀ i ∈ pre, tryInterface pkg ipString name i = none)
    (haddrs : iface.Addrs = some addrs)
    (hsel : (checkAddrs name addrs (doCheckByName name iface addrs.length, false)).1 = true)
    (e : Endpoint)
    (hb : buildEndpoint pkg ipString iface addrs (addrs.any IPv4Validator) = some e) :
    FindInterface pkg ipString (Except.ok (pre ++ iface :: post)) name =
      if e.HW.length = 0 then (none, some errNoHardwareAddress)
      else (some { e with Index := iface.Index }, none) := by
  have ht := tryInterface_selected pkg ipString name iface addrs haddrs hsel
  rw [hb] at ht
  simp only [FindInterface, findInterfaceIn_skip pkg ipString name pre _ hpre, findInterfaceIn]
  by_cases hw : e.HW.length = 0
  · simp only [hw, if_true] at ht ⊢
    rw [ht]
  · simp only [hw, if_false] at ht ⊢
    rw [ht]


theorem buildEndpoint_monitor (pkg : NetPkg) (ipString : List Nat → GoString)
    (iface : Interface) (addrs : List GoString)
    (hno4 : addrs = [] ∨ ∀ a ∈ addrs, IPv4Validator a = false) :
    buildEndpoint pkg ipString iface addrs (addrs.any IPv4Validator) =
      some (NewEndpointNoResolve pkg MonitorModeAddress iface.HardwareAddr iface.Name 0) := by
  have hc : addrs.length = 0 ∨ addrs.any IPv4Validator = false := by
    rcases hno4 with h | h
    · exact Or.inl (by rw [h]; rfl)
    · right
      cases hany : addrs.any IPv4Validator with
      | false => rfl
      | true =>
        obtain ⟨a, ha, hv⟩ := List.any_eq_true.1 hany
        rw [h a ha] at hv
        cases hv
  simp only [buildEndpoint, hc, if_true]

/-- C16. When the query selects an interface (the interfaces before it in the enumeration
being passed over) that has zero addresses, or addresses none of which matches the IPv4
pattern, `FindInterface` builds the monitor-mode Endpoint for it: address "0.0.0.0", the
interface's name, subnet width 0, the interface's hardware address. It returns that
Endpoint with `Index` set to the interface's index, or fails with "Could not detect
interface hardware address." when the Endpoint has no hardware address. -/
theorem FindInterface_monitor_mode (pkg : NetPkg) (ipString : List Nat → GoString)
    (name : GoString) (pre post : List Interface) (iface : Interface) (addrs : List GoString)
    (hpre : ∀ i ∈ pre, tryInterface pkg ipString name i = none)
    (haddrs : iface.Addrs = some addrs)
    (hsel : (name ≠ [] ∧ name = iface.HardwareAddr) ∨
      (name = [] ∧ iface.Name ≠ "lo".toList ∧ iface.Name ≠ "lo0".toList ∧ 0 < addrs.length) ∨
      iface.Name = name ∨
      (name ≠ [] ∧ ∃ a ∈ addrs, a = name ∨ HasPrefix a name = true))
    (hno4 : addrs = [] ∨ ∀ a ∈ addrs, IPv4Validator a = false) :
    (pkg.ParseMAC iface.HardwareAddr = [] →
      FindInterface pkg ipString (Except.ok (pre ++ iface :: post)) name =
        (none, some errNoHardwareAddress)) ∧
    (pkg.ParseMAC iface.HardwareAddr ≠ [] →
      ∃ e, FindInterface pkg ipString (Except.ok (pre ++ iface :: post)) name = (some e, none) ∧
        e = { NewEndpointNoResolve pkg MonitorModeAddress iface.HardwareAddr iface.Name 0 with
              Index := iface.Index } ∧
        e.IpAddress = "0.0.0.0".toList ∧ e.Hostname = iface.Name ∧ e.SubnetBits = 0 ∧
        e.HwAddress = iface.HardwareAddr ∧ e.HW = pkg.ParseMAC iface.HardwareAddr ∧
        e.Index = iface.Index) := by
  have hat := FindInterface_at pkg ipString name pre post iface addrs hpre haddrs
    ((selected_iff name iface addrs).2 hsel) _ (buildEndpoint_monitor pkg ipString iface addrs hno4)
  constructor
  · intro hmac
    rw [hat]
    have : (NewEndpointNoResolve pkg MonitorModeAddress iface.HardwareAddr iface.Name 0).HW.length
        = 0 := by
      simp [NewEndpointNoResolve, hmac]
    rw [if_pos this]
  · intro hmac
    have : ¬ (NewEndpointNoResolve pkg MonitorModeAddress iface.HardwareAddr iface.Name 0).HW.length
        = 0 := by
      simp [NewEndpointNoResolve, hmac]
    rw [if_neg this] at hat
    exact ⟨_, hat, rfl, rfl, rfl, rfl, rfl, rfl, rfl⟩

/-- Witness of C16, scenario 4 of the spec: asked for `wlan0mon`, which has no address, the
resolver returns the monitor-mode Endpoint with the index 3 of that interface. -/
theorem FindInterface_monitor_mode_witness :
    ∃ e, FindInterface ipv4Pkg exampleIPString (Except.ok ([loIf, eth0If] ++ monIf :: []))
          "wlan0mon".toList = (some e, none) ∧
      e = { NewEndpointNoResolve ipv4Pkg MonitorModeAddress monIf.HardwareAddr monIf.Name 0 with
            Index := monIf.Index } ∧
      e.IpAddress = "0.0.0.0".toList ∧ e.Hostname = monIf.Name ∧ e.SubnetBits = 0 ∧
      e.HwAddress = monIf.HardwareAddr ∧ e.HW = ipv4Pkg.ParseMAC monIf.HardwareAddr ∧
      e.Index = monIf.Index :=
  (FindInterface_monitor_mode ipv4Pkg exampleIPString "wlan0mon".toList [loIf, eth0If] [] monIf []
    (by decide) rfl (Or.inr (Or.inr (Or.inl (by decide)))) (Or.inl rfl)).2 (by decide)


theorem scanAddr_ipv4 (pkg : NetPkg) (ipString : List Nat → GoString) (mac ifName : GoString)
    (prev : Option Endpoint) (a : GoString) (bits : Nat)
    (ha : IPv4Validator a = true)
    (hbits : (ContainsRune a '/' = false ∧ bits = 0) ∨
      (ContainsRune a '/' = true ∧ ∃ p b rest v,
        Split a '/' = p :: b :: rest ∧ Atoi b = some v ∧ bits = (v % 2 ^ 32).toNat)) :
    scanAddr pkg ipString mac ifName prev a =
      some (NewEndpointNoResolve pkg ((Split a '/').headD []) mac ifName bits) := by
  rcases hbits with ⟨hns, rfl⟩ | ⟨hs, p, b, rest, v, hsp, hv, rfl⟩
  · have hnot : '/' ∉ a := fun hm => by
      rw [(ContainsRune_iff a '/').2 hm] at hns
      cases hns
    simp only [scanAddr, ha, if_true, hns, Split_no_sep a '/' hnot, List.headD_cons]
  · simp only [scanAddr, ha, if_true, hs, Bool.true_eq_false, if_false, hsp, hv, List.headD_cons]

theorem scanAddr_other (pkg : NetPkg) (ipString : List Nat → GoString) (mac ifName : GoString)
    (e0 : Endpoint) (x : GoString) (hx : IPv4Validator x = false) :
    scanAddr pkg ipString mac ifName (some e0) x =
      some { e0 with
        IPv6 := pkg.ParseIP ((Split x '/').headD [])
        Ip6Address :=
          if pkg.ParseIP ((Split x '/').headD []) ≠ [] then
            ipString (pkg.ParseIP ((Split x '/').headD []))
          else e0.Ip6Address } := by
  simp only [scanAddr, hx, Bool.false_eq_true, if_false]

theorem scan_after (pkg : NetPkg) (ipString : List Nat → GoString) (mac ifName : GoString)
    (after : List GoString) (e0 : Endpoint) (hafter : ∀ x ∈ after, IPv4Validator x = false) :
    ∃ e, after.foldl (scanAddr pkg ipString mac ifName) (some e0) = some e ∧
      e.IpAddress = e0.IpAddress ∧ e.SubnetBits = e0.SubnetBits ∧
      e.HwAddress = e0.HwAddress ∧ e.Hostname = e0.Hostname ∧ e.HW = e0.HW ∧
      (after = [] → e.IPv6 = e0.IPv6) ∧
      (∀ init b, after = init ++ [b] → e.IPv6 = pkg.ParseIP ((Split b '/').headD [])) := by
  induction after using List.reverseRecOn with
  | nil =>
    refine ⟨e0, rfl, rfl, rfl, rfl, rfl, rfl, fun _ => rfl, fun init b h => ?_⟩
    simp at h
  | append_singleton init b ih =>
    obtain ⟨e1, h1, hip, hbits, hhw, hname, hHW, _, _⟩ :=
      ih (fun x hx => hafter x (List.mem_append_left _ hx))
    have hb : IPv4Validator b = false := hafter b (by simp)
    refine ⟨{ e1 with
        IPv6 := pkg.ParseIP ((Split b '/').headD [])
        Ip6Address :=
          if pkg.ParseIP ((Split b '/').headD []) ≠ [] then
            ipString (pkg.ParseIP ((Split b '/').headD []))
          else e1.Ip6Address },
      ?_, hip, hbits, hhw, hname, hHW, fun h => ?_, fun init' b' h => ?_⟩
    · rw [List.foldl_append, h1]
      exact scanAddr_other pkg ipString mac ifName e1 b hb
    · simp at h
    · obtain ⟨_, hbb⟩ := List.append_inj' h rfl
      cases hbb
      rfl

/-- C15, as stated, fails: the interface `eth1` lists 192.168.1.5/24 before 10.0.0.9/8, and
the Endpoint returned for it has the address and width of the second; and for `eth2`,
whose IPv6 address fe80::1/64 comes before its IPv4 address, the Endpoint returned has no
IPv6 address. -/
theorem FindInterface_not_first_IPv4 :
    (∃ e, FindInterface dualPkg exampleIPString (Except.ok [loIf, multiIf]) "eth1".toList =
        (some e, none) ∧
      e.IpAddress = "10.0.0.9".toList ∧ e.SubnetBits = 8 ∧
      multiIf.Addrs = some ["192.168.1.5/24".toList, "10.0.0.9/8".toList, "fe80::1/64".toList]) ∧
    (∃ e, FindInterface dualPkg exampleIPString (Except.ok [loIf, v6FirstIf]) "eth2".toList =
        (some e, none) ∧
      e.IPv6 = [] ∧ e.Ip6Address = [] ∧
      v6FirstIf.Addrs = some ["fe80::1/64".toList, "10.0.0.9/8".toList]) :=
  ⟨⟨{ NewEndpointNoResolve dualPkg "10.0.0.9".toList multiIf.HardwareAddr multiIf.Name 8 with
        IPv6 := linkLocal6, Ip6Address := "fe80::1".toList, Index := 4 },
      by decide, by decide, by decide, by decide⟩,
    ⟨{ NewEndpointNoResolve dualPkg "10.0.0.9".toList v6FirstIf.HardwareAddr v6FirstIf.Name 8 with
        Index := 6 },
      by decide, by decide, by decide, by decide⟩⟩

theorem scan_after_exact (pkg : NetPkg) (ipString : List Nat → GoString)
    (mac ifName : GoString) (after : List GoString) (e0 : Endpoint)
    (hafter : ∀ x ∈ after, IPv4Validator x = false) :
    after.foldl (scanAddr pkg ipString mac ifName) (some e0) =
      some { e0 with
        IPv6 := after.foldl (fun _ x => pkg.ParseIP ((Split x '/').headD [])) e0.IPv6
        Ip6Address := after.foldl
          (fun acc x =>
            if pkg.ParseIP ((Split x '/').headD []) ≠ [] then
              ipString (pkg.ParseIP ((Split x '/').headD []))
            else acc) e0.Ip6Address } := by
  induction after generalizing e0 with
  | nil => rfl
  | cons x xs ih =>
    have hx : IPv4Validator x = false := hafter x (List.mem_cons_self _ _)
    rw [List.foldl_cons, scanAddr_other pkg ipString mac ifName e0 x hx,
      ih _ (fun y hy => hafter y (List.mem_cons_of_mem _ hy))]
    rfl

/-- C15, amended. When the query selects an interface (the interfaces before it being
passed over) whose last address matching the IPv4 pattern is `a`, written without a slash
or with a width after the slash that `Atoi` accepts, the Endpoint built is exactly the
fresh Endpoint of `a`, that of `NewEndpointNoResolve` for the address part of `a`, the
interface's hardware address and name, and the width of `a` (0 without a slash), changed
only by the addresses after `a`: its `IPv6` is what `ParseIP` gives for the last address
after `a`, nil when no address follows `a`, and its `Ip6Address` is the text of the last
address after `a` that parses, empty when there is none. The addresses before `a` do not
appear in it: they leave no trace. It is returned with the interface's index, or the
hardware-address error is returned when it has no hardware address. -/
theorem FindInterface_last_IPv4 (pkg : NetPkg) (ipString : List Nat → GoString)
    (name : GoString) (pre post : List Interface) (iface : Interface)
    (before after : List GoString) (a : GoString) (bits : Nat)
    (hpre : ∀ i ∈ pre, tryInterface pkg ipString name i = none)
    (haddrs : iface.Addrs = some (before ++ a :: after))
    (hsel : (name ≠ [] ∧ name = iface.HardwareAddr) ∨
      (name = [] ∧ iface.Name ≠ "lo".toList ∧ iface.Name ≠ "lo0".toList ∧
        0 < (before ++ a :: after).length) ∨
      iface.Name = name ∨
      (name ≠ [] ∧ ∃ x ∈ before ++ a :: after, x = name ∨ HasPrefix x name = true))
    (ha : IPv4Validator a = true)
    (hbits : (ContainsRune a '/' = false ∧ bits = 0) ∨
      (ContainsRune a '/' = true ∧ ∃ p b rest v,
        Split a '/' = p :: b :: rest ∧ Atoi b = some v ∧ bits = (v % 2 ^ 32).toNat))
    (hafter : ∀ x ∈ after, IPv4Validator x = false) :
    (pkg.ParseMAC iface.HardwareAddr = [] →
      FindInterface pkg ipString (Except.ok (pre ++ iface :: post)) name =
        (none, some errNoHardwareAddress)) ∧
    (pkg.ParseMAC iface.HardwareAddr ≠ [] →
      ∃ e, FindInterface pkg ipString (Except.ok (pre ++ iface :: post)) name = (some e, none) ∧
        e = { NewEndpointNoResolve pkg ((Split a '/').headD []) iface.HardwareAddr iface.Name
                bits with
              IPv6 := after.foldl (fun _ x => pkg.ParseIP ((Split x '/').headD [])) []
              Ip6Address := after.foldl
                (fun acc x =>
                  if pkg.ParseIP ((Split x '/').headD []) ≠ [] then
                    ipString (pkg.ParseIP ((Split x '/').headD []))
                  else acc) []
              Index := iface.Index } ∧
        e.IpAddress = (Split a '/').headD [] ∧ e.SubnetBits = bits ∧
        e.Alias = [] ∧ e.Net = pkg.SubnetOf ((Split a '/').headD []) bits ∧
        e.HW = pkg.ParseMAC iface.HardwareAddr ∧
        (after = [] → e.IPv6 = [] ∧ e.Ip6Address = []) ∧
        (∀ init b, after = init ++ [b] →
          e.IPv6 = pkg.ParseIP ((Split b '/').headD []) ∧
          (pkg.ParseIP ((Split b '/').headD []) ≠ [] →
            e.Ip6Address = ipString (pkg.ParseIP ((Split b '/').headD [])))) ∧
        e.HwAddress = iface.HardwareAddr ∧ e.Hostname = iface.Name ∧
        e.Index = iface.Index) := by
  have hfold := scan_after_exact pkg ipString iface.HardwareAddr iface.Name after
    (NewEndpointNoResolve pkg ((Split a '/').headD []) iface.HardwareAddr iface.Name bits) hafter
  have hany : (before ++ a :: after).any IPv4Validator = true :=
    List.any_eq_true.2 ⟨a, by simp, ha⟩
  have hb : buildEndpoint pkg ipString iface (before ++ a :: after)
      ((before ++ a :: after).any IPv4Validator) =
      some { NewEndpointNoResolve pkg ((Split a '/').headD []) iface.HardwareAddr iface.Name
               bits with
             IPv6 := after.foldl (fun _ x => pkg.ParseIP ((Split x '/').headD [])) []
             Ip6Address := after.foldl
               (fun acc x =>
                 if pkg.ParseIP ((Split x '/').headD []) ≠ [] then
                   ipString (pkg.ParseIP ((Split x '/').headD []))
                 else acc) [] } := by
    have hc : ¬ ((before ++ a :: after).length = 0 ∨
        (before ++ a :: after).any IPv4Validator = false) := by
      rw [hany]
      simp
    simp only [buildEndpoint, hc, if_false, List.foldl_append, List.foldl_cons]
    rw [scanAddr_ipv4 pkg ipString _ _ _ a bits ha hbits]
    exact hfold
  have hat := FindInterface_at pkg ipString name pre post iface _ hpre haddrs
    ((selected_iff name iface _).2 hsel) _ hb
  constructor
  · intro hmac
    rw [hat]
    apply if_pos
    show (pkg.ParseMAC iface.HardwareAddr).length = 0
    rw [hmac]
    rfl
  · intro hmac
    have hlen : ¬ (pkg.ParseMAC iface.HardwareAddr).length = 0 := fun h =>
      hmac (List.length_eq_zero.1 h)
    rw [if_neg] at hat
    · refine ⟨_, hat, rfl, rfl, rfl, rfl, rfl, rfl, fun h => ?_, fun init b h => ?_,
        rfl, rfl, rfl⟩
      · subst h
        exact ⟨rfl, rfl⟩
      · subst h
        refine ⟨?_, fun hp => ?_⟩
        · show List.foldl _ _ (init ++ [b]) = _
          rw [List.foldl_append]
          rfl
        · show List.foldl _ _ (init ++ [b]) = _
          rw [List.foldl_append]
          simp only [List.foldl_cons, List.foldl_nil, hp, ne_eq, not_false_eq_true, if_true]
    · exact hlen

/-- Witness of the amended C15. On `eth1`, whose addresses are 192.168.1.5/24, 10.0.0.9/8 and
fe80::1/64, the Endpoint is the fresh one of 10.0.0.9 with width 8, with fe80::1 as IPv6
address and index 4. On `eth3`, whose addresses are 10.0.0.1/24, fe80::1/64 and 10.0.0.9/8,
it is the fresh one of 10.0.0.9 with width 8 and index 7, with no IPv6 address at all. -/
theorem FindInterface_last_IPv4_witness :
    FindInterface dualPkg exampleIPString (Except.ok ([loIf] ++ multiIf :: []))
        "eth1".toList =
      (some { NewEndpointNoResolve dualPkg "10.0.0.9".toList multiIf.HardwareAddr multiIf.Name
                8 with
              IPv6 := linkLocal6, Ip6Address := "fe80::1".toList, Index := 4 }, none) ∧
    FindInterface dualPkg exampleIPString (Except.ok ([loIf] ++ v6MiddleIf :: []))
        "eth3".toList =
      (some { NewEndpointNoResolve dualPkg "10.0.0.9".toList v6MiddleIf.HardwareAddr
                v6MiddleIf.Name 8 with
              IPv6 := [], Ip6Address := [], Index := 7 }, none) := by
  obtain ⟨e1, h1, he1, _⟩ :=
    (FindInterface_last_IPv4 dualPkg exampleIPString "eth1".toList [loIf] [] multiIf
      ["192.168.1.5/24".toList] ["fe80::1/64".toList] "10.0.0.9/8".toList 8
      (by decide) rfl (Or.inr (Or.inr (Or.inl (by decide)))) (by decide)
      (Or.inr ⟨by decide, "10.0.0.9".toList, "8".toList, [], 8, by decide, by decide, by decide⟩)
      (by decide)).2 (by decide)
  obtain ⟨e2, h2, he2, _⟩ :=
    (FindInterface_last_IPv4 dualPkg exampleIPString "eth3".toList [loIf] [] v6MiddleIf
      ["10.0.0.1/24".toList, "fe80::1/64".toList] [] "10.0.0.9/8".toList 8
      (by decide) rfl (Or.inr (Or.inr (Or.inl (by decide)))) (by decide)
      (Or.inr ⟨by decide, "10.0.0.9".toList, "8".toList, [], 8, by decide, by decide, by decide⟩)
      (by decide)).2 (by decide)
  rw [h1, h2, he1, he2]
  exact ⟨by decide, by decide⟩


theorem tryInterface_loopback (pkg : NetPkg) (ipString : List Nat → GoString)
    (iface : Interface)
    (hlo : iface.Name = "lo".toList ∨ iface.Name = "lo0".toList) :
    tryInterface pkg ipString [] iface = none := by
  cases haddrs : iface.Addrs with
  | none => simp only [tryInterface, haddrs]
  | some addrs =>
    apply tryInterface_not_selected pkg ipString [] iface addrs haddrs
    rw [selected_iff]
    rintro (h | h | h | h)
    · exact h.1 rfl
    · rcases hlo with hl | hl
      · exact h.2.1 hl
      · exact h.2.2.1 hl
    · rcases hlo with hl | hl
      · rw [hl] at h
        cases h
      · rw [hl] at h
        cases h
    · exact h.1 rfl

theorem tryInterface_default_none (pkg : NetPkg) (ipString : List Nat → GoString)
    (iface : Interface) (hname : iface.Name ≠ [])
    (h : iface.Name = "lo".toList ∨ iface.Name = "lo0".toList ∨ iface.Addrs = none ∨
      iface.Addrs = some [] ∨
      ∃ addrs, iface.Addrs = some addrs ∧
        buildEndpoint pkg ipString iface addrs (addrs.any IPv4Validator) = none) :
    tryInterface pkg ipString [] iface = none := by
  rcases h with h | h | h | h | ⟨addrs, haddrs, hb⟩
  · exact tryInterface_loopback pkg ipString iface (Or.inl h)
  · exact tryInterface_loopback pkg ipString iface (Or.inr h)
  · simp only [tryInterface, h]
  · apply tryInterface_not_selected pkg ipString [] iface [] h
    rw [selected_iff]
    rintro (h' | h' | h' | h')
    · exact h'.1 rfl
    · exact absurd h'.2.2.2 (by decide)
    · exact hname h'
    · exact h'.1 rfl
  · by_cases hsel : (checkAddrs [] addrs (doCheckByName [] iface addrs.length, false)).1 = true
    · rw [tryInterface_selected pkg ipString [] iface addrs haddrs hsel, hb]
    · exact tryInterface_not_selected pkg ipString [] iface addrs haddrs hsel

theorem errors_differ (name : GoString) : errNoDefaultInterface ≠ errNoInterface name := by
  intro h
  have h2 := congrArg (List.take 16) h
  simp [errNoDefaultInterface, errNoInterface] at h2

/-- C17, as stated, fails: with the enumeration `lo`, `tun0`, `eth0`, where `tun0` has the
address 10.8.0.2/24 and no hardware address, `FindInterface("")` stops at `tun0`, the
first interface that is not a loopback and has an address, and returns no Endpoint but the
error "Could not detect interface hardware address.". -/
theorem FindInterface_default_may_fail :
    FindInterface ipv4Pkg exampleIPString (Except.ok [loIf, tunIf, eth0If]) [] =
        (none, some "Could not detect interface hardware address.".toList) ∧
      tunIf.Name ≠ "lo".toList ∧ tunIf.Name ≠ "lo0".toList ∧
      tunIf.Addrs = some ["10.8.0.2/24".toList] := by
  decide

/-- C17, amended. With the empty query, on an enumeration in which the interfaces up to
the one reached have a non-empty name: `FindInterface` passes over every interface that is
named `lo` or `lo0`, or has no address (or whose addresses cannot be read), or for which
no Endpoint is built, and for the first other one it returns the Endpoint built for it,
with the interface's index, or the error "Could not detect interface hardware address."
when that Endpoint has no hardware address. An Endpoint it returns never comes from an
interface named `lo` or `lo0`. When every interface is passed over it fails with "Could not
find default network interface.", which differs from the "Could not find interface
'<name>'." a non-empty query fails with when every interface is passed over. -/
theorem FindInterface_default (pkg : NetPkg) (ipString : List Nat → GoString) :
    (∀ (pre post : List Interface) (iface : Interface) (addrs : List GoString) (e : Endpoint),
      (∀ i ∈ pre, i.Name ≠ [] ∧
        (i.Name = "lo".toList ∨ i.Name = "lo0".toList ∨ i.Addrs = none ∨ i.Addrs = some [] ∨
          ∃ as, i.Addrs = some as ∧
            buildEndpoint pkg ipString i as (as.any IPv4Validator) = none)) →
      iface.Name ≠ "lo".toList → iface.Name ≠ "lo0".toList →
      iface.Addrs = some addrs → addrs ≠ [] →
      buildEndpoint pkg ipString iface addrs (addrs.any IPv4Validator) = some e →
      FindInterface pkg ipString (Except.ok (pre ++ iface :: post)) [] =
        if e.HW.length = 0 then (none, some errNoHardwareAddress)
        else (some { e with Index := iface.Index }, none)) ∧
    (∀ (ifaces : List Interface) (e : Endpoint),
      FindInterface pkg ipString (Except.ok ifaces) [] = (some e, none) →
      ∃ iface ∈ ifaces, iface.Name ≠ "lo".toList ∧ iface.Name ≠ "lo0".toList ∧
        tryInterface pkg ipString [] iface = some (some e, none)) ∧
    (∀ (ifaces : List Interface),
      (∀ i ∈ ifaces, i.Name ≠ [] ∧
        (i.Name = "lo".toList ∨ i.Name = "lo0".toList ∨ i.Addrs = none ∨ i.Addrs = some [] ∨
          ∃ as, i.Addrs = some as ∧
            buildEndpoint pkg ipString i as (as.any IPv4Validator) = none)) →
      FindInterface pkg ipString (Except.ok ifaces) [] = (none, some errNoDefaultInterface)) ∧
    (∀ (ifaces : List Interface) (name : GoString), name ≠ [] →
      (∀ i ∈ ifaces, tryInterface pkg ipString name i = none) →
      FindInterface pkg ipString (Except.ok ifaces) name = (none, some (errNoInterface name)) ∧
      errNoDefaultInterface ≠ errNoInterface name) := by
  refine ⟨?_, ?_, ?_, ?_⟩
  · intro pre post iface addrs e hpre hlo hlo0 haddrs hne hb
    have hlen : 0 < addrs.length := List.length_pos.2 hne
    exact FindInterface_at pkg ipString [] pre post iface addrs
      (fun i hi => tryInterface_default_none pkg ipString i (hpre i hi).1 (hpre i hi).2)
      haddrs ((selected_iff [] iface addrs).2 (Or.inr (Or.inl ⟨rfl, hlo, hlo0, hlen⟩))) e hb
  · intro ifaces e
    simp only [FindInterface]
    induction ifaces with
    | nil =>
      intro h
      simp only [findInterfaceIn, if_true] at h
      cases h
    | cons i is ih =>
      intro h
      cases ht : tryInterface pkg ipString [] i with
      | none =>
        rw [findInterfaceIn, ht] at h
        obtain ⟨j, hj, hr⟩ := ih h
        exact ⟨j, List.mem_cons_of_mem _ hj, hr⟩
      | some r =>
        rw [findInterfaceIn, ht] at h
        simp only at h
        subst h
        refine ⟨i, List.mem_cons_self _ _, fun hl => ?_, fun hl => ?_, ht⟩
        · rw [tryInterface_loopback pkg ipString i (Or.inl hl)] at ht
          cases ht
        · rw [tryInterface_loopback pkg ipString i (Or.inr hl)] at ht
          cases ht
  · intro ifaces hall
    have h := findInterfaceIn_skip pkg ipString [] ifaces []
      (fun i hi => tryInterface_default_none pkg ipString i (hall i hi).1 (hall i hi).2)
    rw [List.append_nil] at h
    simp only [FindInterface, h, findInterfaceIn, if_true]
  · intro ifaces name hname hall
    have h := findInterfaceIn_skip pkg ipString name ifaces [] hall
    rw [List.append_nil] at h
    refine ⟨?_, errors_differ name⟩
    simp only [FindInterface, h, findInterfaceIn, hname, if_false]

/-- Witness of the amended C17, scenario 3 of the spec: given `lo` and `eth0`, the empty
query returns the Endpoint of `eth0`, 10.0.0.1 of width 24 with index 2; given `lo` alone it
fails with the default-interface error, and the query `eth7` fails with the other one. -/
theorem FindInterface_default_witness :
    FindInterface ipv4Pkg exampleIPString (Except.ok ([loIf] ++ eth0If :: [])) [] =
      (some { NewEndpointNoResolve ipv4Pkg "10.0.0.1".toList eth0If.HardwareAddr
              eth0If.Name 24 with Index := eth0If.Index }, none) ∧
    FindInterface ipv4Pkg exampleIPString (Except.ok [loIf]) [] =
      (none, some errNoDefaultInterface) ∧
    (FindInterface ipv4Pkg exampleIPString (Except.ok [loIf]) "eth7".toList =
        (none, some (errNoInterface "eth7".toList)) ∧
      errNoDefaultInterface ≠ errNoInterface "eth7".toList) :=
  ⟨(FindInterface_default ipv4Pkg exampleIPString).1 [loIf] [] eth0If ["10.0.0.1/24".toList]
      (NewEndpointNoResolve ipv4Pkg "10.0.0.1".toList eth0If.HardwareAddr eth0If.Name 24)
      (by decide) (by decide) (by decide) rfl (by decide) (by decide),
    (FindInterface_default ipv4Pkg exampleIPString).2.2.1 [loIf] (by decide),
    (FindInterface_default ipv4Pkg exampleIPString).2.2.2 [loIf] "eth7".toList (by decide)
      (by decide)⟩


/-! ## The gateway resolver -/

theorem findGatewayIn_skip (pkg : NetPkg) (env : RouteEnv) (iface : Endpoint)
    (pre rest : List GoString)
    (hpre : ∀ l ∈ pre, (env.FindStringSubmatch l).length ≠ env.IPv4RouteTokens) :
    findGatewayIn pkg env iface (pre ++ rest) = findGatewayIn pkg env iface rest := by
  induction pre with
  | nil => rfl
  | cons l ls ih =>
    have h1 := hpre l (List.mem_cons_self _ _)
    have h2 := ih (fun j hj => hpre j (List.mem_cons_of_mem _ hj))
    show findGatewayIn pkg env iface (l :: (ls ++ rest)) = _
    rw [findGatewayIn, if_neg h1]
    exact h2

/-- C18. When the routing query succeeds and `gw` is the gateway address
`IPv4RouteIsGateway` hands to the callback for the first line of the output that the route
pattern matches: if `gw` is the self Endpoint's `IpAddress`, `FindGateway` returns the self
Endpoint itself, no error, and makes no ARP lookup; otherwise it makes one ARP lookup, for
`gw` on the interface's name, and returns the Endpoint built from `gw` and the hardware
address that lookup gave, with no error whatever error the lookup reported. -/
theorem FindGateway_cases (pkg : NetPkg) (env : RouteEnv) (iface : Endpoint)
    (pre post : List GoString) (line gw : GoString)
    (hexec : env.Exec.2 = none)
    (hlines : Split env.Exec.1 '\n' = pre ++ line :: post)
    (hpre : ∀ l ∈ pre, (env.FindStringSubmatch l).length ≠ env.IPv4RouteTokens)
    (hline : (env.FindStringSubmatch line).length = env.IPv4RouteTokens)
    (hgw : ∀ f, env.IPv4RouteIsGateway iface.Name (env.FindStringSubmatch line) f = f gw) :
    (gw = iface.IpAddress → FindGateway pkg env iface = ((some iface, none), [])) ∧
    (gw ≠ iface.IpAddress →
      FindGateway pkg env iface =
        ((some (NewEndpoint pkg gw (env.ArpLookup iface.Name gw false).1), none),
          [(iface.Name, gw)])) := by
  have h : FindGateway pkg env iface = gatewayCallback pkg env iface gw := by
    simp only [FindGateway, hexec, hlines, findGatewayIn_skip pkg env iface pre _ hpre]
    rw [findGatewayIn, if_pos hline, hgw]
  rw [h]
  constructor
  · intro heq
    simp only [gatewayCallback, heq, if_true]
  · intro hne
    simp only [gatewayCallback, hne, if_false]

/-- Witness of C18, scenario 5 of the spec and its counterpart: with the default route via
10.0.0.1, the address of the self Endpoint, the resolver returns the self Endpoint and makes
no lookup; with the default route via 10.0.0.2, for which the ARP lookup fails, it returns
an Endpoint for 10.0.0.2 with the empty hardware address and no error. -/
theorem FindGateway_cases_witness :
    FindGateway ipv4Pkg
        (linuxRoutes "10.0.0.0/24 dev eth0 scope link\ndefault via 10.0.0.1 dev eth0".toList)
        selfEndpoint = ((some selfEndpoint, none), []) ∧
    FindGateway ipv4Pkg
        (linuxRoutes "10.0.0.0/24 dev eth0 scope link\ndefault via 10.0.0.2 dev eth0".toList)
        selfEndpoint =
      ((some (NewEndpoint ipv4Pkg "10.0.0.2".toList []), none),
        [("eth0".toList, "10.0.0.2".toList)]) :=
  ⟨(FindGateway_cases ipv4Pkg
      (linuxRoutes "10.0.0.0/24 dev eth0 scope link\ndefault via 10.0.0.1 dev eth0".toList)
      selfEndpoint ["10.0.0.0/24 dev eth0 scope link".toList] []
      "default via 10.0.0.1 dev eth0".toList "10.0.0.1".toList
      rfl (by decide) (by decide) (by decide) (fun _ => rfl)).1 (by decide),
    (FindGateway_cases ipv4Pkg
      (linuxRoutes "10.0.0.0/24 dev eth0 scope link\ndefault via 10.0.0.2 dev eth0".toList)
      selfEndpoint ["10.0.0.0/24 dev eth0 scope link".toList] []
      "default via 10.0.0.2 dev eth0".toList "10.0.0.2".toList
      rfl (by decide) (by decide) (by decide) (fun _ => rfl)).2 (by decide)⟩

end Network
